import Mathlib

set_option maxHeartbeats 1000000

/-
Shallow embedding of the Plump game server (`src/server.js`).  The repository
ships several near-identical copies of the server; `src/server.js` contains two
of them.  The second copy (the one wired to the database module and the rate
limiter, i.e. the deployed code) is the primary model here; where a claim turns
on a divergence between the copies, the first copy's handler is embedded as
well under a `_v1` name, and the second copy's under `_v2`.

Connection handles (socket ids) are modelled as `String`; JavaScript objects
keyed by socket id are modelled as `String → Option α` (with `none` for a
missing key) except where the source relies on object-key insertion order
(`game.predictions` in the bidding code), which is modelled as an ordered
association list `List (String × Int)`.
-/

/-- Suits, from the `SUITS` constant. -/
inductive Suit where
  | hearts | diamonds | clubs | spades
deriving DecidableEq, Repr

/-- Card face values, from the `VALUES` table of the second copy
(`A,K,Q,J,10,...,2`). -/
inductive CardValue where
  | vA | vK | vQ | vJ | v10 | v9 | v8 | v7 | v6 | v5 | v4 | v3 | v2
deriving DecidableEq, Repr

/-- Numeric rank of a face value, from the `rank` field of the `VALUES`
table (`A` is 14 down to `2` is 2). -/
def rankOf : CardValue → Nat
  | .vA => 14
  | .vK => 13
  | .vQ => 12
  | .vJ => 11
  | .v10 => 10
  | .v9 => 9
  | .v8 => 8
  | .v7 => 7
  | .v6 => 6
  | .v5 => 5
  | .v4 => 4
  | .v3 => 3
  | .v2 => 2

/-- A card: suit plus face value (the `display` field is presentation only
and is omitted). -/
structure Card where
  suit : Suit
  value : CardValue
deriving DecidableEq, Repr

/-- The helper `getCardValue(card)` of the second copy: look the card's value
up in the `VALUES` table and return its rank. -/
def getCardValue (c : Card) : Nat := rankOf c.value

/-- One entry of `game.currentTrick`: the acting player's connection handle
and the card played (the redundant `playerName` field added by the second
copy's `playCard` is presentation only and is omitted). -/
structure Play where
  playerId : String
  card : Card
deriving DecidableEq, Repr

/-- The `GAME_PHASES` enumeration. -/
inductive Phase where
  | waitingForPlayers | dealing | makingPredictions | selectingTrump
  | playing | paused | gameOver
deriving DecidableEq, Repr

/-- A `game.players` entry: `{ id, name, isHost }`, plus the `disconnected`
flag that the disconnect handlers add dynamically. -/
structure Player where
  id : String
  name : String
  isHost : Bool
  disconnected : Bool
deriving DecidableEq, Repr

/-- The helper `getCardsForRound(roundNumber)`: the `cardSchedule` lookup
table, defaulting to 13 for a round number outside the table. -/
def getCardsForRound (roundNumber : Nat) : Nat :=
  match roundNumber with
  | 1 => 13 | 2 => 12 | 3 => 11 | 4 => 10 | 5 => 9 | 6 => 8 | 7 => 7
  | 8 => 6 | 9 => 5 | 10 => 4 | 11 => 3 | 12 => 2 | 13 => 1
  | 14 => 1 | 15 => 1 | 16 => 1 | 17 => 2 | 18 => 3 | 19 => 4
  | 20 => 5 | 21 => 6 | 22 => 7 | 23 => 8 | 24 => 9 | 25 => 10
  | 26 => 11 | 27 => 12 | 28 => 13
  | _ => 13

/-- The helper `isSingleCardRound(roundNumber)`:
`[13, 14, 15, 16].includes(roundNumber)`. -/
def isSingleCardRound (roundNumber : Nat) : Bool :=
  roundNumber == 13 || roundNumber == 14 || roundNumber == 15 || roundNumber == 16

/-- One step of the `trick.reduce` in the single-card branch of the second
copy's `evaluateTrick`: the played card displaces the running winner exactly
when it is of the lead suit and either the running winner is not of the lead
suit or the played card has the higher rank.  `leadSuit` is the nullable
`game.leadSuit`, so suit comparisons are against `some` of the card's suit. -/
def evalStepSingle (leadSuit : Option Suit) (winner play : Play) : Play :=
  if some play.card.suit = leadSuit
      ∧ (some winner.card.suit ≠ leadSuit
         ∨ getCardValue winner.card < getCardValue play.card) then
    play
  else
    winner

/-- One step of the `trick.reduce` in the normal-round branch of
`evaluateTrick`: trump beats non-trump; between two trumps the higher rank
wins; a lead-suit card displaces a non-trump winner that is off-suit or
lower ranked; otherwise the running winner stands. -/
def evalStepNormal (trumpSuit leadSuit : Option Suit) (winner play : Play) : Play :=
  if some play.card.suit = trumpSuit ∧ some winner.card.suit ≠ trumpSuit then
    play
  else if some play.card.suit = trumpSuit ∧ some winner.card.suit = trumpSuit then
    (if getCardValue winner.card < getCardValue play.card then play else winner)
  else if some play.card.suit = leadSuit ∧ some winner.card.suit ≠ trumpSuit
      ∧ (some winner.card.suit ≠ leadSuit
         ∨ getCardValue winner.card < getCardValue play.card) then
    play
  else
    winner

/-- The second copy's `evaluateTrick(trick, trumpSuit, leadSuit, roundNumber)`.
JavaScript `reduce` without an initial value starts from the first element
(and throws on an empty array, modelled as `none`); the `if (!winner)` guard
in the source is unreachable and therefore not modelled. -/
def evaluateTrick (trick : List Play) (trumpSuit leadSuit : Option Suit)
    (roundNumber : Nat) : Option Play :=
  match trick with
  | [] => none
  | h :: t =>
    if isSingleCardRound roundNumber then
      some (t.foldl (evalStepSingle leadSuit) h)
    else
      some (t.foldl (evalStepNormal trumpSuit leadSuit) h)

/-- Modelled from the spec: the precedence of trick evaluation collapsed to a
numeric key.  A trump card outranks every non-trump card (ranks are at most
14, so `100 + rank` dominates), a lead-suit card counts by its rank, and a
card of neither suit gets key 0 and so never wins as long as any play has a
positive key. -/
def specTrickKey (trumpSuit leadSuit : Option Suit) (p : Play) : Nat :=
  if some p.card.suit = trumpSuit then 100 + getCardValue p.card
  else if some p.card.suit = leadSuit then getCardValue p.card
  else 0

/-- Maximum of a list of naturals (0 for the empty list). -/
def maxKey (l : List Nat) : Nat := l.foldl max 0

/-- Modelled from the spec: the winner of a trick is the earliest play whose
key under `specTrickKey` attains the maximum over the trick. -/
def specTrickWinner (trick : List Play) (trumpSuit leadSuit : Option Suit) :
    Option Play :=
  trick.find?
    (fun p => specTrickKey trumpSuit leadSuit p
        == maxKey (trick.map (specTrickKey trumpSuit leadSuit)))

/-- Left fold that keeps the earliest element of maximal key: the common shape
of both `reduce` steps in `evaluateTrick`. -/
def pickMax {α : Type} (k : α → Nat) (h : α) (t : List α) : α :=
  t.foldl (fun w p => if k w < k p then p else w) h

/-- JavaScript `Array.prototype.findIndex`: the index of the first match, or
`-1` when there is none. -/
def jsFindIndex {α : Type} (f : α → Bool) (l : List α) : Int :=
  match l.findIdx? f with
  | some i => (i : Int)
  | none => -1

/-- JavaScript `array.slice(0, e)` for a possibly negative `e` (a negative
end counts from the end of the array). -/
def jsTake {α : Type} (l : List α) (e : Int) : List α :=
  if e < 0 then l.take (((l.length : Int) + e).toNat) else l.take e.toNat

/-- One step of the fold inside `getHighestBidder` over
`Object.entries(game.predictions)`: a strictly higher bid resets the list of
highest bidders to just this player; an equal bid appends the player; a lower
bid changes nothing. -/
def bidsStep (a : Int × List String) (kv : String × Int) : Int × List String :=
  if a.1 < kv.2 then (kv.2, [kv.1])
  else if kv.2 = a.1 then (a.1, a.2 ++ [kv.1])
  else a

/-- The accumulation inside `getHighestBidder`, starting from
`highestBid = -1` and an empty `highestBidders` list. -/
def bidsFold (predictions : List (String × Int)) : Int × List String :=
  predictions.foldl bidsStep (-1, [])

/-- The second copy's `getHighestBidder(game)`: fold the predictions to the
highest bid and the list of players holding it; a unique highest bidder is
returned directly; otherwise the players are rotated to start just after the
dealer (`players.slice(dealerIndex+1)` then `players.slice(0, dealerIndex)`,
which leaves the dealer out) and the first rotated player among the tied
bidders wins. -/
def getHighestBidder (players : List Player) (dealerId : String)
    (predictions : List (String × Int)) : Option String :=
  let acc := bidsFold predictions
  let highestBidders := acc.2
  if highestBidders.length = 1 then
    highestBidders.head?
  else
    let dealerIndex := jsFindIndex (fun p => p.id == dealerId) players
    let playersInOrder :=
      players.drop (dealerIndex + 1).toNat ++ jsTake players dealerIndex
    match playersInOrder.find? (fun p => highestBidders.contains p.id) with
    | some p => some p.id
    | none => none

/-- Maximum bid among the predictions, with the same `-1` base the source
uses (every real bid is nonnegative, so the base never surfaces). -/
def specMaxBid (predictions : List (String × Int)) : Int :=
  predictions.foldl (fun m kv => max m kv.2) (-1)

/-- Modelled from the spec: the highest bidder is the first player, in
seating order starting immediately after the dealer (dealer last), whose
recorded prediction equals the maximum prediction. -/
def specHighestBidder (players : List Player) (dealerId : String)
    (predictions : List (String × Int)) : Option String :=
  match players.findIdx? (fun p => p.id == dealerId) with
  | none => none
  | some d =>
    let rotation := players.drop (d + 1) ++ players.take (d + 1)
    (rotation.find?
      (fun p => predictions.lookup p.id == some (specMaxBid predictions))).map
      Player.id

/-- Per-round scoring state: the four socket-id-keyed objects read and
written by `calculateScores`. -/
structure ScoreState where
  predictions : String → Option Int
  tricks : String → Option Int
  scores : String → Option Int
  plumps : String → Option Int

/-- The body of the `game.players.forEach` in the second copy's
`calculateScores`: read `predictions[p] || 0` and `tricks[p] || 0`, award
`prediction*10` (prediction at least 10) or `prediction+10` on a match and
add a plump otherwise, and always add the round score (0 after a plump) to
the cumulative total. -/
def scoreOnePlayer (g : ScoreState) (pid : String) : ScoreState :=
  let prediction := (g.predictions pid).getD 0
  let tricks := (g.tricks pid).getD 0
  let roundScore : Int :=
    if prediction = tricks then
      (if 10 ≤ prediction then prediction * 10 else prediction + 10)
    else 0
  let plumps' : String → Option Int :=
    if prediction = tricks then g.plumps
    else fun k => if k = pid then some ((g.plumps pid).getD 0 + 1) else g.plumps k
  { g with
    plumps := plumps'
    scores := fun k =>
      if k = pid then some ((g.scores pid).getD 0 + roundScore) else g.scores k }

/-- The second copy's `calculateScores(game)`: the scoring fold over
`game.players`. -/
def calculateScores (players : List Player) (g : ScoreState) : ScoreState :=
  players.foldl (fun acc p => scoreOnePlayer acc p.id) g

/-- Four connected players used by the concrete scoring and bidding
examples. -/
def exPlayers : List Player :=
  [⟨"a", "Anna", true, false⟩, ⟨"b", "Ben", false, false⟩,
   ⟨"c", "Cleo", false, false⟩, ⟨"d", "Dana", false, false⟩]

/-- Concrete scoring state realising the spec's scoring examples: Anna
predicted 5 and won 5 tricks, Ben predicted 12 and won 12, Cleo predicted 3
and won 2, Dana has no recorded prediction and won 0. -/
def exScore : ScoreState :=
  { predictions := fun k =>
      if k = "a" then some 5 else if k = "b" then some 12
      else if k = "c" then some 3 else none
    tricks := fun k =>
      if k = "a" then some 5 else if k = "b" then some 12
      else if k = "c" then some 2 else if k = "d" then some 0 else none
    scores := fun _ => some 0
    plumps := fun _ => some 0 }

/-- JavaScript `obj[k] = v` on an insertion-ordered object: an existing key
keeps its position and gets the new value, a new key is appended. -/
def objSet (l : List (String × Int)) (k : String) (v : Int) :
    List (String × Int) :=
  if l.any (fun kv => kv.1 == k) then
    l.map (fun kv => if kv.1 == k then (k, v) else kv)
  else l ++ [(k, v)]

/-- Update the first list element satisfying `f` (JavaScript mutation of the
object returned by `find`, or of `players[players.findIndex(...)]`). -/
def updateFirst {α : Type} (f : α → Bool) (u : α → α) : List α → List α
  | [] => []
  | x :: xs => if f x then u x :: xs else x :: updateFirst f u xs

/-- Game state touched by the `makePrediction` handlers.  Fields that only
mirror a player's name for display (`currentPlayerName`) are kept because the
handlers write them. -/
structure PredGame where
  phase : Phase
  players : List Player
  currentPlayer : Option String
  currentPlayerName : Option String
  predictions : List (String × Int)
  cardsPerPlayer : Nat
  roundNumber : Nat
  highestBidder : Option String
  dealerId : String
deriving DecidableEq, Repr

/-- Shared by both prediction handlers: advance `currentPlayer` to the seat
after the submitter, via `getNextPlayerIndex` over `findIndex`. -/
def advanceAfter (g : PredGame) (pid : String) : PredGame :=
  let i := jsFindIndex (fun p => p.id == pid) g.players
  let nextIdx := ((i + 1) % (g.players.length : Int)).toNat
  { g with currentPlayer := (g.players.get? nextIdx).map Player.id
           currentPlayerName := (g.players.get? nextIdx).map Player.name }

/-- The first copy's `makePrediction` handler (the one with the turn check):
ignore the action outside the prediction phase, reject a submitter other than
`currentPlayer` with `'Not your turn'`, forbid the 4th bidder from making the
prediction total equal `cardsPerPlayer`, then record the bid and either
advance the turn or, on the 4th bid, move to play (single-card rounds, first
player who predicted 1) or to trump selection (highest bid, insertion-order
tie-break).  The result pairs the new state with the error sent to the
acting connection, if any; the exact text of the sum-ban template string is
abbreviated. -/
def makePrediction_v1 (g : PredGame) (pid : String) (prediction : Int) :
    PredGame × Option String :=
  if g.phase ≠ Phase.makingPredictions then (g, none)
  else if some pid ≠ g.currentPlayer then (g, some "Not your turn")
  else
    let isLastPredictor := g.predictions.length = 3
    let predictionsSum := (g.predictions.map Prod.snd).foldl (· + ·) 0
    if isLastPredictor ∧ predictionsSum + prediction = (g.cardsPerPlayer : Int) then
      (g, some "Your prediction cannot make the total equal cardsPerPlayer")
    else
      let g := { g with predictions := objSet g.predictions pid prediction }
      if g.predictions.length = 4 then
        if 13 ≤ g.roundNumber ∧ g.roundNumber ≤ 16 then
          let startingPlayer :=
            match g.predictions.find? (fun kv => kv.2 == 1) with
            | some kv => some kv.1
            | none => g.currentPlayer
          ({ g with phase := Phase.playing
                    currentPlayer := startingPlayer
                    currentPlayerName :=
                      (g.players.find? (fun p => some p.id == startingPlayer)).map
                        Player.name
                    highestBidder := startingPlayer }, none)
        else
          let sel := (g.predictions.foldl
            (fun (a : Int × Option String) kv =>
              if a.1 < kv.2 then (kv.2, some kv.1) else a) (-1, none)).2
          ({ g with phase := Phase.selectingTrump
                    currentPlayer := sel
                    currentPlayerName :=
                      (g.players.find? (fun p => some p.id == sel)).map Player.name
                    highestBidder := sel }, none)
      else (advanceAfter g pid, none)

/-- The second copy's `makePrediction` handler (the deployed one): it ignores
the action outside the prediction phase and then records
`game.predictions[socket.id] = Number(prediction)` unconditionally — there is
no turn check and no rejection path.  If predictions are still missing the
turn advances; on the last prediction the phase moves to playing (single-card
rounds) or trump selection, with `getHighestBidder` picking the bidder in
both branches. -/
def makePrediction_v2 (g : PredGame) (pid : String) (prediction : Int) :
    PredGame :=
  if g.phase ≠ Phase.makingPredictions then g
  else
    let g := { g with predictions := objSet g.predictions pid prediction }
    if g.predictions.length < g.players.length then
      advanceAfter g pid
    else if g.predictions.length = g.players.length then
      let hb := getHighestBidder g.players g.dealerId g.predictions
      if isSingleCardRound g.roundNumber then
        { g with phase := Phase.playing
                 highestBidder := hb
                 currentPlayer := hb
                 currentPlayerName :=
                   (g.players.find? (fun p => some p.id == hb)).map Player.name }
      else
        { g with phase := Phase.selectingTrump
                 highestBidder := hb
                 currentPlayer := hb
                 currentPlayerName :=
                   (g.players.find? (fun p => some p.id == hb)).map Player.name }
    else g

/-- A concrete bidding state: four players, Dana dealing, Anna (the seat
after the dealer) to act first, no bids yet. -/
def exBidGame : PredGame :=
  { phase := Phase.makingPredictions
    players := exPlayers
    currentPlayer := some "a"
    currentPlayerName := some "Anna"
    predictions := []
    cardsPerPlayer := 13
    roundNumber := 1
    highestBidder := none
    dealerId := "d" }

/-- A complete set of predictions in bidding order (Dana dealt, so Anna bid
first): Ben and Cleo tie for the highest bid. -/
def exBids : List (String × Int) :=
  [("a", 2), ("b", 3), ("c", 3), ("d", 1)]

/-- Game state touched by the second copy's `playCard` handler.  The
`playerCardLocks` map is global and keyed by `gameId-playerId`; restricted to
one game it is the set of player ids that already played this trick, kept
here as the `locks` field. -/
structure PlayGame where
  phase : Phase
  players : List Player
  currentPlayer : Option String
  currentPlayerName : Option String
  hands : String → Option (List Card)
  currentTrick : List Play
  leadSuit : Option Suit
  trumpSuit : Option Suit
  roundNumber : Nat
  isEvaluatingTrick : Bool
  tricks : String → Option Int
  trickWinner : Option Play
  locks : List String

/-- The second copy's `validatePlay(game, playerId, card)`: reject a player
who already holds a card lock for this trick, a missing hand, a card not in
the hand, and a failure to follow suit; `none` means the play is valid and
`some msg` carries the rejection message. -/
def validatePlay (g : PlayGame) (playerId : String) (card : Card) :
    Option String :=
  if g.locks.contains playerId then some "Already played a card in this trick"
  else
    match g.hands playerId with
    | none => some "Player hand not found"
    | some playerHand =>
      if ¬ playerHand.any (fun c => c.suit == card.suit && c.value == card.value)
      then some "Card not in hand"
      else if g.currentTrick.length = 0 then none
      else if playerHand.any (fun c => some c.suit == g.leadSuit)
          ∧ some card.suit ≠ g.leadSuit then some "Must follow suit"
      else none

/-- The second copy's `playCard` handler up to (but not including) the
deferred `setTimeout` continuation: phase guard, duplicate-play lock check,
turn check, `isEvaluatingTrick` check, `validatePlay`; on acceptance the lock
is set, the card joins the trick (setting the lead suit on the first card)
and leaves the hand, and either the trick completes — evaluating the winner,
incrementing the winner's trick count and raising `isEvaluatingTrick` — or
the turn advances to the next seat. -/
def playCard_v2 (g : PlayGame) (pid : String) (card : Card) :
    PlayGame × Option String :=
  if g.phase ≠ Phase.playing then (g, none)
  else if g.locks.contains pid then
    (g, some "Already played a card in this trick")
  else if some pid ≠ g.currentPlayer then (g, some "Not your turn")
  else if g.isEvaluatingTrick then
    (g, some "Please wait for the current trick to complete")
  else
    match validatePlay g pid card with
    | some msg => (g, some msg)
    | none =>
      let g1 := { g with locks := g.locks ++ [pid]
                         currentTrick := g.currentTrick ++ [Play.mk pid card] }
      let g2 := if g1.currentTrick.length = 1
                then { g1 with leadSuit := some card.suit } else g1
      let g3 := { g2 with hands := fun k =>
                    if k = pid then
                      (g2.hands pid).map (fun (h : List Card) => h.filter
                        (fun c => ¬ (c.suit = card.suit ∧ c.value = card.value)))
                    else g2.hands k }
      if g3.currentTrick.length = 4 then
        match evaluateTrick g3.currentTrick g3.trumpSuit g3.leadSuit
            g3.roundNumber with
        | some winningPlay =>
          ({ g3 with isEvaluatingTrick := true
                     tricks := fun k =>
                       if k = winningPlay.playerId then
                         some ((g3.tricks winningPlay.playerId).getD 0 + 1)
                       else g3.tricks k
                     trickWinner := some winningPlay }, none)
        | none => (g3, none)
      else
        let i := jsFindIndex (fun p => p.id == pid) g3.players
        let nextIdx := ((i + 1) % (g3.players.length : Int)).toNat
        ({ g3 with currentPlayer := (g3.players.get? nextIdx).map Player.id
                   currentPlayerName :=
                     (g3.players.get? nextIdx).map Player.name }, none)

/-- A concrete playing state for the lock claims: Anna to act, empty trick,
one card in her hand, no locks held. -/
def exPlayGame : PlayGame :=
  { phase := Phase.playing
    players := exPlayers
    currentPlayer := some "a"
    currentPlayerName := some "Anna"
    hands := fun k => if k = "a" then some [⟨Suit.hearts, CardValue.vQ⟩] else
      if k = "b" then some [⟨Suit.clubs, CardValue.v4⟩] else none
    currentTrick := []
    leadSuit := none
    trumpSuit := some Suit.spades
    roundNumber := 2
    isEvaluatingTrick := false
    tricks := fun _ => some 0
    trickWinner := none
    locks := [] }

/-- The transfer step of the second copy's `rejoinGame` for the non-`tricks`
state keys: when the old handle has an entry (`!== undefined`), copy it to
the new handle and delete the old one, in that order. -/
def transferKey {α : Type} (m : String → Option α) (oldId newId : String) :
    String → Option α :=
  fun k =>
    match m oldId with
    | none => m k
    | some v =>
      if k = oldId then none
      else if k = newId then some v
      else m k

/-- The transfer step of the second copy's `rejoinGame` for the `tricks` key:
`game.tricks[newId] = (game.tricks[newId] || 0) + oldTricks`, then delete the
old entry. -/
def transferTricks (m : String → Option Int) (oldId newId : String) :
    String → Option Int :=
  fun k =>
    if m oldId = none then m k
    else if k = oldId then none
    else if k = newId then some ((m newId).getD 0 + (m oldId).getD 0)
    else m k

/-- Game state touched by the second copy's `rejoinGame` remap. -/
structure RGame where
  players : List Player
  hands : String → Option (List Card)
  predictions : String → Option Int
  scores : String → Option Int
  plumps : String → Option Int
  tricks : String → Option Int
  currentTrick : List Play
  currentPlayer : Option String
  currentPlayerName : Option String
  highestBidder : Option String

/-- The remap transaction of the second copy's `rejoinGame` (the state
transfer, player record update and reference updates).  The handler first
looks the old socket id up in `disconnectedPlayers`, but the entries stored
there carry no `playerName` field, so that probe always misses and the old
id always comes from the player record found by name; a missing player
yields an error and no state change (`none`).  The `validateGameState` and
`recoverGameState` passes run after this transaction and are outside the
modelled remap. -/
def rejoinGame_v2 (g : RGame) (playerName newId : String) : Option RGame :=
  match g.players.find? (fun p => p.name == playerName) with
  | none => none
  | some player =>
    let oldId := player.id
    let trick' := g.currentTrick.map
      (fun pl => if pl.playerId = oldId then { pl with playerId := newId } else pl)
    let g := { g with currentTrick := trick' }
    let g := { g with predictions := transferKey g.predictions oldId newId
                      hands := transferKey g.hands oldId newId
                      scores := transferKey g.scores oldId newId
                      plumps := transferKey g.plumps oldId newId
                      tricks := transferTricks g.tricks oldId newId }
    let players' := updateFirst (fun p => p.id == oldId)
        (fun p => { p with id := newId, disconnected := false }) g.players
    let g := { g with players := players' }
    let g := if g.currentPlayer = some oldId then
               { g with currentPlayer := some newId
                        currentPlayerName := some playerName }
             else g
    let g := if g.highestBidder = some oldId then
               { g with highestBidder := some newId }
             else g
    some g

/-- A concrete mid-round state for the reconnection claims: Cleo has
disconnected while holding a hand, a prediction, scores, a plump and a
trick count, and Anna has a card in the current trick. -/
def exRGame : RGame :=
  { players := [⟨"a", "Anna", true, false⟩, ⟨"b", "Ben", false, false⟩,
      ⟨"c", "Cleo", false, true⟩, ⟨"d", "Dana", false, false⟩]
    hands := fun k =>
      if k = "c" then some [⟨Suit.clubs, CardValue.v9⟩]
      else if k = "a" then some [⟨Suit.spades, CardValue.v2⟩] else none
    predictions := fun k => if k = "c" then some 2 else none
    scores := fun k =>
      if k = "c" then some 15 else if k = "a" then some 10 else none
    plumps := fun k => if k = "c" then some 1 else none
    tricks := fun k => if k = "c" then some 0 else none
    currentTrick := [⟨"a", ⟨Suit.spades, CardValue.v7⟩⟩]
    currentPlayer := some "c"
    currentPlayerName := some "Cleo"
    highestBidder := some "b" }

/-- Game registry entry touched by `joinGame`. -/
structure JGame where
  phase : Phase
  players : List Player
  scores : String → Option Int
  plumps : String → Option Int

/-- The second copy's `joinGame` handler over the `games` registry: a missing
game or a full game (4 players already) is rejected with an error and no
state change; otherwise the new player is appended (never as host) and the
score and plump counters are initialised.  The handler performs no phase
check and no name-uniqueness check. -/
def joinGame (games : String → Option JGame) (gameId pid playerName : String) :
    (String → Option JGame) × Option String :=
  match games gameId with
  | none => (games, some "Game not found")
  | some game =>
    if 4 ≤ game.players.length then (games, some "Game is full")
    else
      let game' := { game with
        players := game.players ++ [Player.mk pid playerName false false]
        scores := fun k => if k = pid then some 0 else game.scores k
        plumps := fun k => if k = pid then some 0 else game.plumps k }
      (fun k => if k = gameId then some game' else games k, none)

/-- A one-player game still waiting for players, and a registry holding it
under the id `G1`. -/
def exJGame : JGame :=
  { phase := Phase.waitingForPlayers
    players := [⟨"a", "Anna", true, false⟩]
    scores := fun k => if k = "a" then some 0 else none
    plumps := fun k => if k = "a" then some 0 else none }

/-- Registry fixture for the join claims. -/
def exGames : String → Option JGame :=
  fun k => if k = "G1" then some exJGame else none

/-- Game state touched by the disconnect and rejoin pause logic.  `phase` is
an `Option` because the first copy's resume assignment copies the possibly
absent `previousPhase` field back into `phase`. -/
structure DGame where
  phase : Option Phase
  previousPhase : Option Phase
  players : List Player
  currentPlayer : Option String
  highestBidder : Option String
  hands : String → Option (List Card)
  predictions : String → Option Int
  tricks : String → Option Int

/-- The first copy's disconnect handler, restricted to the game containing
the socket: mark the player disconnected, and if the disconnecting player is
the current actor, snapshot `phase` into `previousPhase` and pause the game.
The `disconnectedPlayers` bookkeeping, the user-facing `message` and the
write-only `pausedDuringTurn` flag are presentation only and are omitted. -/
def disconnect_v1 (g : DGame) (pid : String) : DGame :=
  if g.players.any (fun p => p.id == pid) then
    let players' := updateFirst (fun p => p.id == pid)
        (fun p => { p with disconnected := true }) g.players
    let g := { g with players := players' }
    if g.currentPlayer = some pid then
      { g with previousPhase := g.phase, phase := some Phase.paused }
    else g
  else g

/-- The second copy's disconnect handler, restricted to one game: it marks
the player disconnected (and stores a snapshot in the global
`disconnectedPlayers` map, which nothing restores from), but never touches
`phase` or `previousPhase` — there is no pause. -/
def disconnect_v2 (g : DGame) (pid : String) : DGame :=
  if g.players.any (fun p => p.id == pid) then
    let players' := updateFirst (fun p => p.id == pid)
        (fun p => { p with disconnected := true }) g.players
    { g with players := players' }
  else g

/-- The transfer step of the first copy's `rejoinGame` for number-valued
maps, which uses JavaScript truthiness (`if (game.predictions[oldId])`): an
entry holding 0 is falsy and is not transferred. -/
def transferTruthyInt (m : String → Option Int) (oldId newId : String) :
    String → Option Int :=
  fun k =>
    if (m oldId).getD 0 = 0 then m k
    else if k = oldId then none
    else if k = newId then m oldId
    else m k

/-- The first copy's `rejoinGame` handler: find the player record by name
(no action when absent), move its id to the new socket and mark it
connected, update `currentPlayer` and `highestBidder` references, transfer
`hands` (truthiness on an array always holds when the entry exists),
`predictions` and `tricks` (truthiness drops 0-valued entries), and resume
from `previousPhase` exactly when the game is paused and no player remains
disconnected. -/
def rejoinGame_v1 (g : DGame) (playerName newId : String) : Option DGame :=
  match g.players.find? (fun p => p.name == playerName) with
  | none => none
  | some player =>
    let oldId := player.id
    let players' := updateFirst (fun p => p.name == playerName)
        (fun p => { p with id := newId, disconnected := false }) g.players
    let g := { g with players := players' }
    let g := if g.currentPlayer = some oldId
             then { g with currentPlayer := some newId } else g
    let g := if g.highestBidder = some oldId
             then { g with highestBidder := some newId } else g
    let g := { g with hands := transferKey g.hands oldId newId
                      predictions := transferTruthyInt g.predictions oldId newId
                      tricks := transferTruthyInt g.tricks oldId newId }
    let g := if g.phase = some Phase.paused
                ∧ g.players.any (fun p => p.disconnected) = false
             then { g with phase := g.previousPhase }
             else g
    some g

/-- A concrete mid-play state for the pause claims: Anna is the current
actor in a playing game, everyone connected. -/
def exDGame : DGame :=
  { phase := some Phase.playing
    previousPhase := none
    players := exPlayers
    currentPlayer := some "a"
    highestBidder := some "b"
    hands := fun k => if k = "a" then some [⟨Suit.hearts, CardValue.vQ⟩] else none
    predictions := fun k => if k = "a" then some 2 else none
    tricks := fun _ => some 0 }

/-- C3: for every roundNumber from 1 to 28, the cards dealt per player equal
the fixed schedule — 14-roundNumber for rounds 1..13, exactly 1 for rounds
13..16, and roundNumber-15 for rounds 17..28 — a round is single-card iff
roundNumber is in 13..16, and 4*cardsPerPlayer never exceeds 52. -/
theorem getCardsForRound_schedule (r : Nat) (h1 : 1 ≤ r) (h2 : r ≤ 28) :
    getCardsForRound r
      = (if r ≤ 13 then 14 - r else if r ≤ 16 then 1 else r - 15)
    ∧ (isSingleCardRound r = true ↔ (13 ≤ r ∧ r ≤ 16))
    ∧ 4 * getCardsForRound r ≤ 52 := by
  interval_cases r <;> decide

/-- Witness: the claim instantiated at roundNumber 13 (the overlap point of
the descending run and the single-card block). -/
theorem getCardsForRound_schedule_witness :
    getCardsForRound 13
      = (if 13 ≤ 13 then 14 - 13 else if 13 ≤ 16 then 1 else 13 - 15)
    ∧ (isSingleCardRound 13 = true ↔ (13 ≤ 13 ∧ 13 ≤ 16))
    ∧ 4 * getCardsForRound 13 ≤ 52 :=
  getCardsForRound_schedule 13 (by decide) (by decide)

theorem getCardValue_le (c : Card) : getCardValue c ≤ 14 := by
  cases c with
  | mk s v => cases v <;> simp [getCardValue, rankOf]

theorem two_le_getCardValue (c : Card) : 2 ≤ getCardValue c := by
  cases c with
  | mk s v => cases v <;> simp [getCardValue, rankOf]

theorem le_k_pickMax {α : Type} (k : α → Nat) (t : List α) :
    ∀ h, k h ≤ k (pickMax k h t) := by
  induction t with
  | nil => intro h; simp [pickMax]
  | cons p t ih =>
    intro h
    simp only [pickMax, List.foldl_cons] at *
    by_cases hc : k h < k p
    · simpa [hc] using le_trans (le_of_lt hc) (ih p)
    · simpa [hc] using ih h

theorem pickMax_mem {α : Type} (k : α → Nat) (t : List α) :
    ∀ h, pickMax k h t ∈ h :: t := by
  induction t with
  | nil => intro h; simp [pickMax]
  | cons p t ih =>
    intro h
    simp only [pickMax, List.foldl_cons] at *
    by_cases hc : k h < k p
    · have := ih p
      simp only [hc, if_pos] at *
      rcases List.mem_cons.1 this with h1 | h1
      · simp [h1]
      · simp [List.mem_cons.2 (Or.inr (List.mem_cons.2 (Or.inr h1)))]
    · have := ih h
      simp only [hc, if_neg, ite_false] at *
      rcases List.mem_cons.1 this with h1 | h1
      · simp [h1]
      · simp [List.mem_cons.2 (Or.inr (List.mem_cons.2 (Or.inr h1)))]

theorem pickMax_ub {α : Type} (k : α → Nat) (t : List α) :
    ∀ h x, x ∈ h :: t → k x ≤ k (pickMax k h t) := by
  induction t with
  | nil =>
    intro h x hx
    rcases List.mem_cons.1 hx with h1 | h1
    · subst h1; simp [pickMax]
    · simp at h1
  | cons p t ih =>
    intro h x hx
    simp only [pickMax, List.foldl_cons] at *
    rcases List.mem_cons.1 hx with h1 | h1
    · subst h1
      by_cases hc : k x < k p
      · simp only [hc, if_pos]
        exact le_trans (le_of_lt hc) (le_k_pickMax k t p)
      · simp only [hc, if_neg, ite_false]
        exact le_k_pickMax k t x
    · rcases List.mem_cons.1 h1 with h2 | h2
      · subst h2
        by_cases hc : k h < k x
        · simp only [hc, if_pos]
          exact le_k_pickMax k t x
        · simp only [hc, if_neg, ite_false]
          exact le_trans (le_of_not_lt hc) (le_k_pickMax k t h)
      · by_cases hc : k h < k p
        · simp only [hc, if_pos]
          exact ih p x (List.mem_cons.2 (Or.inr h2))
        · simp only [hc, if_neg, ite_false]
          exact ih h x (List.mem_cons.2 (Or.inr h2))

theorem pickMax_eq_head_or_lt {α : Type} (k : α → Nat) (t : List α) :
    ∀ h, pickMax k h t = h ∨ k h < k (pickMax k h t) := by
  induction t with
  | nil => intro h; left; simp [pickMax]
  | cons p t ih =>
    intro h
    simp only [pickMax, List.foldl_cons] at *
    by_cases hc : k h < k p
    · right
      simp only [hc, if_pos]
      exact lt_of_lt_of_le hc (le_k_pickMax k t p)
    · simp only [hc, if_neg, ite_false]
      exact ih h

theorem find?_cons_pos {α : Type} (pred : α → Bool) (a : α) (l : List α)
    (h : pred a = true) : (a :: l).find? pred = some a := by
  simp [List.find?, h]

theorem find?_cons_neg {α : Type} (pred : α → Bool) (a : α) (l : List α)
    (h : pred a = false) : (a :: l).find? pred = l.find? pred := by
  simp [List.find?, h]

theorem find?_pickMax {α : Type} (k : α → Nat) (t : List α) :
    ∀ h, (h :: t).find? (fun x => k x == k (pickMax k h t))
      = some (pickMax k h t) := by
  induction t with
  | nil => intro h; simp [pickMax, List.find?]
  | cons p t ih =>
    intro h
    by_cases hc : k h < k p
    · have hrw : pickMax k h (p :: t) = pickMax k p t := by
        simp [pickMax, List.foldl_cons, hc]
      rw [hrw]
      have hK : k h < k (pickMax k p t) := lt_of_lt_of_le hc (le_k_pickMax k t p)
      have hhead : (fun x => k x == k (pickMax k p t)) h = false := by
        simp [Nat.ne_of_lt hK]
      exact (find?_cons_neg _ h (p :: t) hhead).trans (ih p)
    · have hrw : pickMax k h (p :: t) = pickMax k h t := by
        simp [pickMax, List.foldl_cons, hc]
      rw [hrw]
      rcases pickMax_eq_head_or_lt k t h with heq | hlt
      · rw [heq]
        exact find?_cons_pos _ h (p :: t) (by simp)
      · have hhead : (fun x => k x == k (pickMax k h t)) h = false := by
          simp [Nat.ne_of_lt hlt]
        have hp : (fun x => k x == k (pickMax k h t)) p = false := by
          have hle : k p ≤ k h := le_of_not_lt hc
          simp [Nat.ne_of_lt (lt_of_le_of_lt hle hlt)]
        have htail : List.find? (fun x => k x == k (pickMax k h t)) t
            = some (pickMax k h t) :=
          (find?_cons_neg _ h t hhead).symm.trans (ih h)
        exact (find?_cons_neg _ h (p :: t) hhead).trans
          ((find?_cons_neg _ p t hp).trans htail)

theorem foldl_max_init_le (l : List Nat) : ∀ a, a ≤ l.foldl max a := by
  induction l with
  | nil => intro a; simp
  | cons x l ih =>
    intro a
    simpa using le_trans (le_max_left a x) (ih (max a x))

theorem le_foldl_max (l : List Nat) : ∀ a x, x ∈ l → x ≤ l.foldl max a := by
  induction l with
  | nil => intro a x hx; simp at hx
  | cons y l ih =>
    intro a x hx
    rcases List.mem_cons.1 hx with h1 | h1
    · subst h1
      simpa using le_trans (le_max_right a x) (foldl_max_init_le l (max a x))
    · simpa using ih (max a y) x h1

theorem foldl_max_le (l : List Nat) :
    ∀ a b, a ≤ b → (∀ x ∈ l, x ≤ b) → l.foldl max a ≤ b := by
  induction l with
  | nil => intro a b hab _; simpa using hab
  | cons y l ih =>
    intro a b hab hall
    simp only [List.foldl_cons]
    exact ih (max a y) b (max_le hab (hall y (List.mem_cons_self y l)))
      (fun x hx => hall x (List.mem_cons.2 (Or.inr hx)))

theorem maxKey_map_pickMax {α : Type} (k : α → Nat) (h : α) (t : List α) :
    maxKey ((h :: t).map k) = k (pickMax k h t) := by
  apply le_antisymm
  · apply foldl_max_le _ _ _ (Nat.zero_le _)
    intro x hx
    rcases List.mem_map.1 hx with ⟨y, hy, rfl⟩
    exact pickMax_ub k t h y hy
  · exact le_foldl_max _ _ _ (List.mem_map_of_mem k (pickMax_mem k t h))

theorem evalStepSingle_eq (leadSuit : Option Suit) (w p : Play) :
    evalStepSingle leadSuit w p
      = (if specTrickKey none leadSuit w < specTrickKey none leadSuit p
         then p else w) := by
  have h1 := getCardValue_le p.card
  have h2 := getCardValue_le w.card
  have h3 := two_le_getCardValue p.card
  have h4 := two_le_getCardValue w.card
  unfold evalStepSingle specTrickKey
  by_cases hpl : some p.card.suit = leadSuit <;>
    by_cases hwl : some w.card.suit = leadSuit <;>
    simp [hpl, hwl] <;> split_ifs <;> first | rfl | omega

theorem evalStepNormal_eq (trumpSuit leadSuit : Option Suit) (w p : Play) :
    evalStepNormal trumpSuit leadSuit w p
      = (if specTrickKey trumpSuit leadSuit w < specTrickKey trumpSuit leadSuit p
         then p else w) := by
  have h1 := getCardValue_le p.card
  have h2 := getCardValue_le w.card
  have h3 := two_le_getCardValue p.card
  have h4 := two_le_getCardValue w.card
  unfold evalStepNormal specTrickKey
  by_cases hpt : some p.card.suit = trumpSuit <;>
    by_cases hwt : some w.card.suit = trumpSuit <;>
    by_cases hpl : some p.card.suit = leadSuit <;>
    by_cases hwl : some w.card.suit = leadSuit <;>
    simp [hpt, hwt, hpl, hwl] <;> split_ifs <;>
    first | rfl | omega | (exfalso; simp_all)

theorem evaluateTrick_eq_pickMax (h : Play) (t : List Play)
    (trumpSuit leadSuit : Option Suit) (roundNumber : Nat) :
    evaluateTrick (h :: t) trumpSuit leadSuit roundNumber
      = some (pickMax
          (specTrickKey (if isSingleCardRound roundNumber then none else trumpSuit)
            leadSuit) h t) := by
  have hs : evalStepSingle leadSuit
      = fun w p => if specTrickKey none leadSuit w < specTrickKey none leadSuit p
                   then p else w := by
    funext w p; exact evalStepSingle_eq leadSuit w p
  have hn : evalStepNormal trumpSuit leadSuit
      = fun w p => if specTrickKey trumpSuit leadSuit w
            < specTrickKey trumpSuit leadSuit p then p else w := by
    funext w p; exact evalStepNormal_eq trumpSuit leadSuit w p
  unfold evaluateTrick
  by_cases hr : isSingleCardRound roundNumber
  · simp only [hr, if_pos, if_true, hs]; rfl
  · simp only [hr, if_neg, ite_false, Bool.false_eq_true, hn]; rfl

theorem evaluateTrick_eq_specTrickWinner (h : Play) (t : List Play)
    (trumpSuit leadSuit : Option Suit) (roundNumber : Nat) :
    evaluateTrick (h :: t) trumpSuit leadSuit roundNumber
      = specTrickWinner (h :: t)
          (if isSingleCardRound roundNumber then none else trumpSuit) leadSuit := by
  rw [evaluateTrick_eq_pickMax]
  unfold specTrickWinner
  simp only [maxKey_map_pickMax]
  exact (find?_pickMax _ t h).symm

/-- C1: for every completed 4-card trick led by a card of the lead suit,
`evaluateTrick` returns the spec's winner: with the effective trump (ignored
in the single-card rounds 13..16) the earliest play maximising the
trump-over-lead-suit-over-offsuit precedence key wins, and a card of neither
trump nor lead suit never wins.  In particular, with trump hearts and lead
spades over the plays spades-10, hearts-2, spades-K, clubs-5 the winner is
P2 (trump beats higher-ranked non-trump), and in a single-card round with
lead diamonds over diamonds-7, clubs-A, diamonds-K, hearts-3 the winner is
P3 (highest of the lead suit; the off-suit ace never qualifies). -/
theorem evaluateTrick_correct :
    (∀ (p1 p2 p3 p4 : Play) (trumpSuit leadSuit : Option Suit)
        (roundNumber : Nat),
       some p1.card.suit = leadSuit →
       (evaluateTrick [p1, p2, p3, p4] trumpSuit leadSuit roundNumber
          = specTrickWinner [p1, p2, p3, p4]
              (if isSingleCardRound roundNumber then none else trumpSuit)
              leadSuit
        ∧ ∀ w, evaluateTrick [p1, p2, p3, p4] trumpSuit leadSuit roundNumber
              = some w →
            (some w.card.suit
                = (if isSingleCardRound roundNumber then none else trumpSuit)
              ∨ some w.card.suit = leadSuit)))
    ∧ evaluateTrick
        [⟨"P1", ⟨Suit.spades, CardValue.v10⟩⟩,
         ⟨"P2", ⟨Suit.hearts, CardValue.v2⟩⟩,
         ⟨"P3", ⟨Suit.spades, CardValue.vK⟩⟩,
         ⟨"P4", ⟨Suit.clubs, CardValue.v5⟩⟩]
        (some Suit.hearts) (some Suit.spades) 5
      = some ⟨"P2", ⟨Suit.hearts, CardValue.v2⟩⟩
    ∧ evaluateTrick
        [⟨"P1", ⟨Suit.diamonds, CardValue.v7⟩⟩,
         ⟨"P2", ⟨Suit.clubs, CardValue.vA⟩⟩,
         ⟨"P3", ⟨Suit.diamonds, CardValue.vK⟩⟩,
         ⟨"P4", ⟨Suit.hearts, CardValue.v3⟩⟩]
        none (some Suit.diamonds) 14
      = some ⟨"P3", ⟨Suit.diamonds, CardValue.vK⟩⟩ := by
  refine ⟨?_, by decide, by decide⟩
  intro p1 p2 p3 p4 trumpSuit leadSuit roundNumber hlead
  refine ⟨evaluateTrick_eq_specTrickWinner p1 [p2, p3, p4] trumpSuit leadSuit
    roundNumber, ?_⟩
  intro w hw
  rw [evaluateTrick_eq_pickMax] at hw
  have hw' : pickMax
      (specTrickKey (if isSingleCardRound roundNumber then none else trumpSuit)
        leadSuit) p1 [p2, p3, p4] = w := Option.some.inj hw
  by_contra hcon
  push_neg at hcon
  obtain ⟨hnt, hnl⟩ := hcon
  have hk0 : specTrickKey
      (if isSingleCardRound roundNumber then none else trumpSuit) leadSuit w
      = 0 := by
    simp [specTrickKey, hnt, hnl]
  have hle : specTrickKey
      (if isSingleCardRound roundNumber then none else trumpSuit) leadSuit p1
      ≤ specTrickKey
      (if isSingleCardRound roundNumber then none else trumpSuit) leadSuit w := by
    rw [← hw']
    exact le_k_pickMax _ _ p1
  have h2 : 2 ≤ specTrickKey
      (if isSingleCardRound roundNumber then none else trumpSuit) leadSuit p1 := by
    by_cases h : some p1.card.suit
        = (if isSingleCardRound roundNumber then none else trumpSuit)
    · unfold specTrickKey
      rw [if_pos h]
      have := two_le_getCardValue p1.card
      omega
    · unfold specTrickKey
      rw [if_neg h, if_pos hlead]
      exact two_le_getCardValue p1.card
  omega

/-- Witness: the general clause of the claim instantiated at the spec's
first example trick. -/
theorem evaluateTrick_correct_witness :
    evaluateTrick
        [⟨"P1", ⟨Suit.spades, CardValue.v10⟩⟩,
         ⟨"P2", ⟨Suit.hearts, CardValue.v2⟩⟩,
         ⟨"P3", ⟨Suit.spades, CardValue.vK⟩⟩,
         ⟨"P4", ⟨Suit.clubs, CardValue.v5⟩⟩]
        (some Suit.hearts) (some Suit.spades) 5
      = specTrickWinner
          [⟨"P1", ⟨Suit.spades, CardValue.v10⟩⟩,
           ⟨"P2", ⟨Suit.hearts, CardValue.v2⟩⟩,
           ⟨"P3", ⟨Suit.spades, CardValue.vK⟩⟩,
           ⟨"P4", ⟨Suit.clubs, CardValue.v5⟩⟩]
          (if isSingleCardRound 5 then none else some Suit.hearts)
          (some Suit.spades)
    ∧ ∀ w, evaluateTrick
          [⟨"P1", ⟨Suit.spades, CardValue.v10⟩⟩,
           ⟨"P2", ⟨Suit.hearts, CardValue.v2⟩⟩,
           ⟨"P3", ⟨Suit.spades, CardValue.vK⟩⟩,
           ⟨"P4", ⟨Suit.clubs, CardValue.v5⟩⟩]
          (some Suit.hearts) (some Suit.spades) 5 = some w →
        (some w.card.suit = (if isSingleCardRound 5 then none else some Suit.hearts)
          ∨ some w.card.suit = some Suit.spades) :=
  evaluateTrick_correct.1
    ⟨"P1", ⟨Suit.spades, CardValue.v10⟩⟩
    ⟨"P2", ⟨Suit.hearts, CardValue.v2⟩⟩
    ⟨"P3", ⟨Suit.spades, CardValue.vK⟩⟩
    ⟨"P4", ⟨Suit.clubs, CardValue.v5⟩⟩
    (some Suit.hearts) (some Suit.spades) 5 (by decide)

theorem scoreOnePlayer_other (g : ScoreState) (pid k : String) (hk : k ≠ pid) :
    (scoreOnePlayer g pid).scores k = g.scores k
    ∧ (scoreOnePlayer g pid).plumps k = g.plumps k := by
  unfold scoreOnePlayer
  constructor
  · simp [hk]
  · by_cases hc : (g.predictions pid).getD 0 = (g.tricks pid).getD 0 <;>
      simp [hc, hk]

theorem calculateScores_untouched (players : List Player) :
    ∀ (g : ScoreState) (pid : String), (∀ p ∈ players, p.id ≠ pid) →
    (calculateScores players g).scores pid = g.scores pid
    ∧ (calculateScores players g).plumps pid = g.plumps pid := by
  induction players with
  | nil => intro g pid _; exact ⟨rfl, rfl⟩
  | cons q rest ih =>
    intro g pid h
    have hq : q.id ≠ pid := h q (List.mem_cons_self q rest)
    have hrest : ∀ p ∈ rest, p.id ≠ pid :=
      fun p hp => h p (List.mem_cons.2 (Or.inr hp))
    have o := scoreOnePlayer_other g q.id pid (Ne.symm hq)
    have i := ih (scoreOnePlayer g q.id) pid hrest
    exact ⟨i.1.trans o.1, i.2.trans o.2⟩

theorem scoreOnePlayer_agree (g1 g2 : ScoreState) (pid : String)
    (hp : g1.predictions pid = g2.predictions pid)
    (ht : g1.tricks pid = g2.tricks pid)
    (hs : g1.scores pid = g2.scores pid)
    (hpl : g1.plumps pid = g2.plumps pid) :
    (scoreOnePlayer g1 pid).scores pid = (scoreOnePlayer g2 pid).scores pid
    ∧ (scoreOnePlayer g1 pid).plumps pid = (scoreOnePlayer g2 pid).plumps pid := by
  unfold scoreOnePlayer
  by_cases hc : (g2.predictions pid).getD 0 = (g2.tricks pid).getD 0 <;>
    simp [hp, ht, hs, hpl, hc]

theorem calculateScores_apply (players : List Player) :
    ∀ (g : ScoreState) (p : Player), p ∈ players →
    (players.map Player.id).Nodup →
    (calculateScores players g).scores p.id = (scoreOnePlayer g p.id).scores p.id
    ∧ (calculateScores players g).plumps p.id
        = (scoreOnePlayer g p.id).plumps p.id := by
  induction players with
  | nil => intro g p hp _; cases hp
  | cons q rest ih =>
    intro g p hp hnd
    simp only [List.map_cons, List.nodup_cons] at hnd
    obtain ⟨hqni, hndr⟩ := hnd
    rcases List.mem_cons.1 hp with rfl | hpr
    · have hrest : ∀ r ∈ rest, r.id ≠ p.id := by
        intro r hr heq
        exact hqni (heq ▸ List.mem_map_of_mem Player.id hr)
      exact calculateScores_untouched rest (scoreOnePlayer g p.id) p.id hrest
    · have hqp : q.id ≠ p.id := by
        intro heq
        exact hqni (heq ▸ List.mem_map_of_mem Player.id hpr)
      have o := scoreOnePlayer_other g q.id p.id (Ne.symm hqp)
      have a := scoreOnePlayer_agree (scoreOnePlayer g q.id) g p.id rfl rfl o.1 o.2
      have i := ih (scoreOnePlayer g q.id) p hpr hndr
      exact ⟨i.1.trans a.1, i.2.trans a.2⟩

/-- C2: at the end of a round, a player whose recorded prediction equals
their tricks won gains prediction*10 when the prediction is at least 10 and
prediction+10 otherwise, with their plump count unchanged; a player whose
prediction differs gains exactly one plump and no points.  The concrete
conjuncts realise the spec's examples: prediction 5 with 5 tricks adds 15,
prediction 12 with 12 tricks adds 120, prediction 3 with 2 tricks adds one
plump and 0 points. -/
theorem calculateScores_correct (players : List Player) (g : ScoreState)
    (p : Player) (pr tw : Int) (hp : p ∈ players)
    (hnd : (players.map Player.id).Nodup)
    (hpr : g.predictions p.id = some pr) (htw : g.tricks p.id = some tw) :
    ((pr = tw →
        ((calculateScores players g).scores p.id).getD 0
          = (g.scores p.id).getD 0 + (if 10 ≤ pr then pr * 10 else pr + 10)
        ∧ ((calculateScores players g).plumps p.id).getD 0
          = (g.plumps p.id).getD 0)
     ∧ (pr ≠ tw →
        ((calculateScores players g).plumps p.id).getD 0
          = (g.plumps p.id).getD 0 + 1
        ∧ ((calculateScores players g).scores p.id).getD 0
          = (g.scores p.id).getD 0))
    ∧ (calculateScores exPlayers exScore).scores "a" = some 15
    ∧ (calculateScores exPlayers exScore).scores "b" = some 120
    ∧ (calculateScores exPlayers exScore).scores "c" = some 0
    ∧ (calculateScores exPlayers exScore).plumps "c" = some 1
    ∧ (calculateScores exPlayers exScore).plumps "a" = some 0 := by
  refine ⟨⟨?_, ?_⟩, by decide, by decide, by decide, by decide, by decide⟩
  · intro heq
    obtain ⟨ms, mp⟩ := calculateScores_apply players g p hp hnd
    rw [ms, mp]
    unfold scoreOnePlayer
    simp [hpr, htw, heq]
  · intro hne
    obtain ⟨ms, mp⟩ := calculateScores_apply players g p hp hnd
    rw [ms, mp]
    unfold scoreOnePlayer
    simp [hpr, htw, hne]

/-- Witness: the C2 claim instantiated at Anna, prediction 5, tricks 5. -/
theorem calculateScores_correct_witness :
    (((5 : Int) = 5 →
        ((calculateScores exPlayers exScore).scores
            (Player.mk "a" "Anna" true false).id).getD 0
          = (exScore.scores (Player.mk "a" "Anna" true false).id).getD 0
            + (if 10 ≤ (5 : Int) then 5 * 10 else 5 + 10)
        ∧ ((calculateScores exPlayers exScore).plumps
            (Player.mk "a" "Anna" true false).id).getD 0
          = (exScore.plumps (Player.mk "a" "Anna" true false).id).getD 0)
     ∧ ((5 : Int) ≠ 5 →
        ((calculateScores exPlayers exScore).plumps
            (Player.mk "a" "Anna" true false).id).getD 0
          = (exScore.plumps (Player.mk "a" "Anna" true false).id).getD 0 + 1
        ∧ ((calculateScores exPlayers exScore).scores
            (Player.mk "a" "Anna" true false).id).getD 0
          = (exScore.scores (Player.mk "a" "Anna" true false).id).getD 0))
    ∧ (calculateScores exPlayers exScore).scores "a" = some 15
    ∧ (calculateScores exPlayers exScore).scores "b" = some 120
    ∧ (calculateScores exPlayers exScore).scores "c" = some 0
    ∧ (calculateScores exPlayers exScore).plumps "c" = some 1
    ∧ (calculateScores exPlayers exScore).plumps "a" = some 0 :=
  calculateScores_correct exPlayers exScore (Player.mk "a" "Anna" true false)
    5 5 (by decide) (by decide) (by decide) (by decide)

/-- C10 (implicit): in end-of-round scoring a player without a recorded
prediction for the round is scored as if they had predicted 0, so with 0
tricks won they are awarded 0+10 = 10 points and no plump, while with at
least 1 trick won they receive a plump and no points. -/
theorem calculateScores_default_prediction (players : List Player)
    (g : ScoreState) (p : Player) (hp : p ∈ players)
    (hnd : (players.map Player.id).Nodup)
    (hpr : g.predictions p.id = none) :
    ((g.tricks p.id).getD 0 = 0 →
       ((calculateScores players g).scores p.id).getD 0
         = (g.scores p.id).getD 0 + 10
       ∧ ((calculateScores players g).plumps p.id).getD 0
         = (g.plumps p.id).getD 0)
    ∧ (1 ≤ (g.tricks p.id).getD 0 →
       ((calculateScores players g).plumps p.id).getD 0
         = (g.plumps p.id).getD 0 + 1
       ∧ ((calculateScores players g).scores p.id).getD 0
         = (g.scores p.id).getD 0) := by
  obtain ⟨ms, mp⟩ := calculateScores_apply players g p hp hnd
  constructor
  · intro h0
    rw [ms, mp]
    unfold scoreOnePlayer
    simp [hpr, h0]
  · intro h1
    have hne : (0 : Int) ≠ (g.tricks p.id).getD 0 := by omega
    rw [ms, mp]
    unfold scoreOnePlayer
    simp [hpr, hne]

/-- Witness: the C10 claim instantiated at Dana, who has no recorded
prediction and 0 tricks won. -/
theorem calculateScores_default_prediction_witness :
    ((exScore.tricks (Player.mk "d" "Dana" false false).id).getD 0 = 0 →
       ((calculateScores exPlayers exScore).scores
           (Player.mk "d" "Dana" false false).id).getD 0
         = (exScore.scores (Player.mk "d" "Dana" false false).id).getD 0 + 10
       ∧ ((calculateScores exPlayers exScore).plumps
           (Player.mk "d" "Dana" false false).id).getD 0
         = (exScore.plumps (Player.mk "d" "Dana" false false).id).getD 0)
    ∧ (1 ≤ (exScore.tricks (Player.mk "d" "Dana" false false).id).getD 0 →
       ((calculateScores exPlayers exScore).plumps
           (Player.mk "d" "Dana" false false).id).getD 0
         = (exScore.plumps (Player.mk "d" "Dana" false false).id).getD 0 + 1
       ∧ ((calculateScores exPlayers exScore).scores
           (Player.mk "d" "Dana" false false).id).getD 0
         = (exScore.scores (Player.mk "d" "Dana" false false).id).getD 0) :=
  calculateScores_default_prediction exPlayers exScore
    (Player.mk "d" "Dana" false false) (by decide) (by decide) (by decide)

theorem bidsStep_fst (a : Int × List String) (kv : String × Int) :
    (bidsStep a kv).1 = max a.1 kv.2 := by
  unfold bidsStep
  rw [max_def]
  split_ifs <;> first | rfl | omega

theorem bidsFoldAux_fst (l : List (String × Int)) :
    ∀ a : Int × List String,
    (l.foldl bidsStep a).1 = l.foldl (fun m kv => max m kv.2) a.1 := by
  induction l with
  | nil => intro a; rfl
  | cons kv l ih =>
    intro a
    simp only [List.foldl_cons]
    rw [ih (bidsStep a kv), bidsStep_fst]

theorem bidsFold_fst (l : List (String × Int)) :
    (bidsFold l).1 = specMaxBid l :=
  bidsFoldAux_fst l (-1, [])

theorem bidMaxAux_init_le (l : List (String × Int)) :
    ∀ a : Int, a ≤ l.foldl (fun m kv => max m kv.2) a := by
  induction l with
  | nil => intro a; simp
  | cons kv l ih =>
    intro a
    simp only [List.foldl_cons]
    exact le_trans (le_max_left a kv.2) (ih (max a kv.2))

theorem le_bidMaxAux (l : List (String × Int)) :
    ∀ (a : Int) (kv : String × Int), kv ∈ l →
      kv.2 ≤ l.foldl (fun m kv => max m kv.2) a := by
  induction l with
  | nil => intro a kv h; simp at h
  | cons x l ih =>
    intro a kv h
    simp only [List.foldl_cons]
    rcases List.mem_cons.1 h with rfl | h1
    · exact le_trans (le_max_right a kv.2) (bidMaxAux_init_le l (max a kv.2))
    · exact ih (max a x.2) kv h1

theorem le_specMaxBid (l : List (String × Int)) (kv : String × Int)
    (h : kv ∈ l) : kv.2 ≤ specMaxBid l :=
  le_bidMaxAux l (-1) kv h

theorem specMaxBid_append_single (l : List (String × Int))
    (x : String × Int) :
    specMaxBid (l ++ [x]) = max (specMaxBid l) x.2 := by
  unfold specMaxBid
  rw [List.foldl_append]
  rfl

theorem specMaxBid_attained (l : List (String × Int)) (hne : l ≠ [])
    (hnn : ∀ kv ∈ l, 0 ≤ kv.2) :
    ∃ kv ∈ l, kv.2 = specMaxBid l := by
  have aux : ∀ (m : List (String × Int)) (a : Int),
      m.foldl (fun m kv => max m kv.2) a = a
      ∨ ∃ kv ∈ m, kv.2 = m.foldl (fun m kv => max m kv.2) a := by
    intro m
    induction m with
    | nil => intro a; left; rfl
    | cons x t ih =>
      intro a
      simp only [List.foldl_cons]
      rcases ih (max a x.2) with h | ⟨kv, hkv, hkv2⟩
      · rcases le_or_lt x.2 a with hle | hlt
        · left
          rw [h, max_eq_left hle]
        · right
          exact ⟨x, List.mem_cons_self x t, by rw [h, max_eq_right (le_of_lt hlt)]⟩
      · right
        exact ⟨kv, List.mem_cons.2 (Or.inr hkv), hkv2⟩
  rcases aux l (-1) with h | h
  · exfalso
    match l, hne with
    | kv :: t, _ =>
      have h1 : kv.2 ≤ specMaxBid (kv :: t) :=
        le_specMaxBid (kv :: t) kv (List.mem_cons_self kv t)
      have h2 : 0 ≤ kv.2 := hnn kv (List.mem_cons_self kv t)
      have h3 : specMaxBid (kv :: t) = -1 := h
      omega
  · exact h

theorem bidsFold_snd (l : List (String × Int))
    (hnn : ∀ kv ∈ l, 0 ≤ kv.2) :
    (bidsFold l).2
      = (l.filter (fun kv => kv.2 == (bidsFold l).1)).map Prod.fst := by
  induction l using List.reverseRecOn with
  | nil => rfl
  | append_singleton l x ih =>
    have hnn' : ∀ kv ∈ l, 0 ≤ kv.2 :=
      fun kv hkv => hnn kv (List.mem_append.2 (Or.inl hkv))
    have hstep : bidsFold (l ++ [x]) = bidsStep (bidsFold l) x := by
      unfold bidsFold
      rw [List.foldl_append]
      rfl
    have hfst : (bidsFold (l ++ [x])).1 = max (bidsFold l).1 x.2 := by
      rw [hstep, bidsStep_fst]
    have hlle : ∀ kv ∈ l, kv.2 ≤ (bidsFold l).1 := by
      intro kv hkv
      rw [bidsFold_fst]
      exact le_specMaxBid l kv hkv
    rcases lt_trichotomy (bidsFold l).1 x.2 with h1 | h2 | h3
    · -- strictly higher final bid: the list resets to just x
      have hsnd : (bidsFold (l ++ [x])).2 = [x.1] := by
        rw [hstep]
        unfold bidsStep
        rw [if_pos h1]
      have hM : (bidsFold (l ++ [x])).1 = x.2 := by
        rw [hfst, max_eq_right (le_of_lt h1)]
      rw [hsnd, hM]
      have hfl : l.filter (fun kv => kv.2 == x.2) = [] := by
        rw [List.filter_eq_nil_iff]
        intro kv hkv
        have := hlle kv hkv
        simp only [beq_iff_eq]
        omega
      rw [List.filter_append, hfl]
      simp
    · -- equal bid: x joins the tied list
      have hsnd : (bidsFold (l ++ [x])).2 = (bidsFold l).2 ++ [x.1] := by
        rw [hstep]
        unfold bidsStep
        rw [if_neg (by omega), if_pos h2.symm]
      have hM : (bidsFold (l ++ [x])).1 = (bidsFold l).1 := by
        rw [hfst, max_eq_left (by omega)]
      rw [hsnd, hM, List.filter_append, List.map_append, ← ih hnn']
      have hfx : List.filter (fun kv => kv.2 == (bidsFold l).1) [x] = [x] := by
        simp [List.filter, h2.symm]
      rw [hfx]
      rfl
    · -- lower bid: nothing changes
      have hsnd : (bidsFold (l ++ [x])).2 = (bidsFold l).2 := by
        rw [hstep]
        unfold bidsStep
        rw [if_neg (by omega), if_neg (by omega)]
      have hM : (bidsFold (l ++ [x])).1 = (bidsFold l).1 := by
        rw [hfst, max_eq_left (le_of_lt h3)]
      rw [hsnd, hM, List.filter_append, List.map_append, ← ih hnn']
      have hfx : List.filter (fun kv => kv.2 == (bidsFold l).1) [x] = [] := by
        have hb : (x.2 == (bidsFold l).1) = false := by
          simp only [beq_eq_false_iff_ne, ne_eq]
          omega
        simp [List.filter, hb]
      rw [hfx]
      simp

theorem lookup_of_mem_nodup (l : List (String × Int)) (k : String) (v : Int)
    (hnd : (l.map Prod.fst).Nodup) (hmem : (k, v) ∈ l) :
    l.lookup k = some v := by
  induction l with
  | nil => simp at hmem
  | cons x t ih =>
    simp only [List.map_cons, List.nodup_cons] at hnd
    obtain ⟨hx, hndt⟩ := hnd
    rcases List.mem_cons.1 hmem with rfl | h1
    · simp [List.lookup]
    · have hne : k ≠ x.1 := by
        intro heq
        exact hx (heq ▸ List.mem_map_of_mem Prod.fst h1)
      have hb : (k == x.1) = false := by simp [hne]
      simp only [List.lookup, hb]
      exact ih hndt h1

theorem mem_of_lookup_eq_some (l : List (String × Int)) (k : String) (v : Int)
    (h : l.lookup k = some v) : (k, v) ∈ l := by
  induction l with
  | nil => simp [List.lookup] at h
  | cons x t ih =>
    by_cases hb : k == x.1
    · simp only [List.lookup, hb] at h
      have hk : k = x.1 := by simpa using hb
      have hx : x = (k, v) := by
        cases x
        simp only [Option.some.injEq] at h
        simp_all
      exact hx ▸ List.mem_cons_self x t
    · have hb' : (k == x.1) = false := by simpa using hb
      simp only [List.lookup, hb'] at h
      exact List.mem_cons.2 (Or.inr (ih h))

theorem find?_eq_some_of_unique {α : Type} (pred : α → Bool) (l : List α)
    (x : α) (hx : x ∈ l) (hpx : pred x = true)
    (huniq : ∀ y ∈ l, pred y = true → y = x) : l.find? pred = some x := by
  induction l with
  | nil => simp at hx
  | cons a t ih =>
    by_cases ha : pred a = true
    · rw [find?_cons_pos pred a t ha]
      rw [huniq a (List.mem_cons_self a t) ha]
    · have ha' : pred a = false := by simpa using ha
      rw [find?_cons_neg pred a t ha']
      have hxt : x ∈ t := by
        rcases List.mem_cons.1 hx with rfl | h1
        · exact absurd hpx ha
        · exact h1
      exact ih hxt (fun y hy hpy => huniq y (List.mem_cons.2 (Or.inr hy)) hpy)

theorem find?_congrPred {α : Type} (p q : α → Bool) (l : List α)
    (h : ∀ y ∈ l, p y = q y) : l.find? p = l.find? q := by
  induction l with
  | nil => rfl
  | cons a t ih =>
    have ha := h a (List.mem_cons_self a t)
    by_cases hp : p a = true
    · rw [find?_cons_pos p a t hp, find?_cons_pos q a t (ha ▸ hp)]
    · have hp' : p a = false := by simpa using hp
      rw [find?_cons_neg p a t hp', find?_cons_neg q a t (ha ▸ hp')]
      exact ih (fun y hy => h y (List.mem_cons.2 (Or.inr hy)))

theorem find?_append_some {α : Type} (p : α → Bool) (l1 l2 : List α) (x : α)
    (h : l1.find? p = some x) : (l1 ++ l2).find? p = some x := by
  induction l1 with
  | nil => simp [List.find?] at h
  | cons a t ih =>
    by_cases ha : p a = true
    · rw [find?_cons_pos p a t ha] at h
      rw [List.cons_append, find?_cons_pos p a (t ++ l2) ha]
      exact h
    · have ha' : p a = false := by simpa using ha
      rw [find?_cons_neg p a t ha'] at h
      rw [List.cons_append, find?_cons_neg p a (t ++ l2) ha']
      exact ih h

theorem find?_append_none {α : Type} (p : α → Bool) (l1 l2 : List α)
    (h : l1.find? p = none) : (l1 ++ l2).find? p = l2.find? p := by
  induction l1 with
  | nil => rfl
  | cons a t ih =>
    by_cases ha : p a = true
    · rw [find?_cons_pos p a t ha] at h
      cases h
    · have ha' : p a = false := by simpa using ha
      rw [find?_cons_neg p a t ha'] at h
      rw [List.cons_append, find?_cons_neg p a (t ++ l2) ha']
      exact ih h

theorem find?_ne_none_of_mem {α : Type} (p : α → Bool) (l : List α) (x : α)
    (hx : x ∈ l) (hpx : p x = true) : l.find? p ≠ none := by
  induction l with
  | nil => simp at hx
  | cons a t ih =>
    by_cases ha : p a = true
    · rw [find?_cons_pos p a t ha]
      simp
    · have ha' : p a = false := by simpa using ha
      rw [find?_cons_neg p a t ha']
      rcases List.mem_cons.1 hx with rfl | h1
      · exact absurd hpx ha
      · exact ih h1

theorem exists_first_decomp (players : List Player) (dealerId : String)
    (hd : dealerId ∈ players.map Player.id) :
    ∃ A dp B, players = A ++ dp :: B ∧ dp.id = dealerId
      ∧ ∀ q ∈ A, q.id ≠ dealerId := by
  induction players with
  | nil => simp at hd
  | cons q rest ih =>
    by_cases hq : q.id = dealerId
    · exact ⟨[], q, rest, by simp, hq, by simp⟩
    · have hd' : dealerId ∈ rest.map Player.id := by
        rcases List.mem_map.1 hd with ⟨r, hr, hrid⟩
        rcases List.mem_cons.1 hr with rfl | h1
        · exact absurd hrid hq
        · exact hrid ▸ List.mem_map_of_mem Player.id h1
      rcases ih hd' with ⟨A, dp, B, hsplit, hdp, hA⟩
      refine ⟨q :: A, dp, B, by rw [hsplit]; rfl, hdp, ?_⟩
      intro r hr
      rcases List.mem_cons.1 hr with rfl | h1
      · exact hq
      · exact hA r h1

theorem findIdx?_first_decomp {α : Type} (f : α → Bool) (A : List α) (dp : α)
    (B : List α) (hA : ∀ a ∈ A, f a = false) (hdp : f dp = true) :
    ∀ i, (A ++ dp :: B).findIdx? f i = some (A.length + i) := by
  induction A with
  | nil =>
    intro i
    simp [List.findIdx?, hdp]
  | cons a t ih =>
    intro i
    have ha := hA a (List.mem_cons_self a t)
    have ht : ∀ b ∈ t, f b = false :=
      fun b hb => hA b (List.mem_cons.2 (Or.inr hb))
    rw [List.cons_append, List.findIdx?_cons, ha]
    simp only [Bool.false_eq_true, if_false]
    rw [ih ht (i + 1)]
    congr 1
    simp [List.length_cons]
    omega

theorem getHighestBidder_eq (players : List Player) (dealerId : String)
    (predictions : List (String × Int)) :
    getHighestBidder players dealerId predictions
      = (if (bidsFold predictions).2.length = 1 then
           (bidsFold predictions).2.head?
         else
           match (players.drop
               ((jsFindIndex (fun p => p.id == dealerId) players + 1)).toNat
               ++ jsTake players
                 (jsFindIndex (fun p => p.id == dealerId) players)).find?
               (fun p => (bidsFold predictions).2.contains p.id) with
           | some p => some p.id
           | none => none) := rfl

theorem player_id_inj (players : List Player)
    (hnd : (players.map Player.id).Nodup) (p q : Player)
    (hp : p ∈ players) (hq : q ∈ players) (heq : p.id = q.id) : p = q :=
  List.inj_on_of_nodup_map hnd hp hq heq

/-- C4: when all four predictions are in, the highest bidder computed by
`getHighestBidder` is exactly the spec's pick — the first player, in seating
order starting immediately after the dealer, whose prediction equals the
maximum prediction; a strictly greatest bidder therefore wins outright, and
ties are broken by that rotation.  The second conjunct states the winner is
a seated player holding the maximum bid. -/
theorem getHighestBidder_correct (players : List Player) (dealerId : String)
    (predictions : List (String × Int))
    (hnd : (players.map Player.id).Nodup)
    (hknd : (predictions.map Prod.fst).Nodup)
    (hperm : (predictions.map Prod.fst).Perm (players.map Player.id))
    (hd : dealerId ∈ players.map Player.id)
    (hnn : ∀ kv ∈ predictions, 0 ≤ kv.2) :
    getHighestBidder players dealerId predictions
      = specHighestBidder players dealerId predictions
    ∧ ∃ p ∈ players, getHighestBidder players dealerId predictions = some p.id
        ∧ predictions.lookup p.id = some (specMaxBid predictions) := by
  have hmem_iff : ∀ k, k ∈ predictions.map Prod.fst ↔ k ∈ players.map Player.id :=
    fun k => hperm.mem_iff
  have hpne : predictions ≠ [] := by
    intro h
    have := (hmem_iff dealerId).2 hd
    rw [h] at this
    simp at this
  have htied : (bidsFold predictions).2
      = (predictions.filter
          (fun kv => kv.2 == specMaxBid predictions)).map Prod.fst := by
    have h := bidsFold_snd predictions hnn
    rwa [bidsFold_fst] at h
  have htiedmem : ∀ k, k ∈ (bidsFold predictions).2
      ↔ (k, specMaxBid predictions) ∈ predictions := by
    intro k
    rw [htied]
    constructor
    · intro hk
      rcases List.mem_map.1 hk with ⟨kv, hkv, rfl⟩
      rcases List.mem_filter.1 hkv with ⟨hkvl, hbid⟩
      have hb : kv.2 = specMaxBid predictions := by simpa using hbid
      have : kv = (kv.1, specMaxBid predictions) := by
        cases kv; simp_all
      exact this ▸ hkvl
    · intro hk
      exact List.mem_map_of_mem Prod.fst (List.mem_filter.2 ⟨hk, by simp⟩)
  have htiednd : (bidsFold predictions).2.Nodup := by
    rw [htied]
    exact List.Nodup.sublist
      (List.Sublist.map Prod.fst (List.filter_sublist predictions)) hknd
  have htiedne : (bidsFold predictions).2 ≠ [] := by
    obtain ⟨kv0, hkv0, hM0⟩ := specMaxBid_attained predictions hpne hnn
    intro h
    have hmm : kv0.1 ∈ (bidsFold predictions).2 := by
      apply (htiedmem kv0.1).2
      have : kv0 = (kv0.1, specMaxBid predictions) := by cases kv0; simp_all
      exact this ▸ hkv0
    rw [h] at hmm
    simp at hmm
  have hlook : ∀ q : Player, q ∈ players →
      (predictions.lookup q.id = some (specMaxBid predictions)
        ↔ q.id ∈ (bidsFold predictions).2) := by
    intro q _
    constructor
    · intro hl
      exact (htiedmem q.id).2 (mem_of_lookup_eq_some _ _ _ hl)
    · intro ht
      exact lookup_of_mem_nodup _ _ _ hknd ((htiedmem q.id).1 ht)
  obtain ⟨A, dp, B, hsplit, hdpid, hAne⟩ :=
    exists_first_decomp players dealerId hd
  have hsplit' : (A ++ [dp]) ++ B = players := by
    rw [hsplit, List.append_assoc]
    rfl
  have hAfalse : ∀ q ∈ A, (fun p => p.id == dealerId) q = false := by
    intro q hq
    simp [hAne q hq]
  have hdptrue : (fun p => p.id == dealerId) dp = true := by simp [hdpid]
  have hidx : players.findIdx? (fun p => p.id == dealerId) = some A.length := by
    rw [hsplit]
    simpa using findIdx?_first_decomp (fun p => p.id == dealerId) A dp B
      hAfalse hdptrue 0
  have hjs : jsFindIndex (fun p => p.id == dealerId) players
      = (A.length : Int) := by
    unfold jsFindIndex
    rw [hidx]
  have hdropN : players.drop (A.length + 1) = B := by
    rw [← hsplit']
    have hl : A.length + 1 = (A ++ [dp]).length := by simp
    rw [hl]
    exact List.drop_left (A ++ [dp]) B
  have htakeN : players.take (A.length + 1) = A ++ [dp] := by
    rw [← hsplit']
    have hl : A.length + 1 = (A ++ [dp]).length := by simp
    rw [hl]
    exact List.take_left (A ++ [dp]) B
  have hdropC : players.drop (((A.length : Int) + 1)).toNat = B := by
    have : (((A.length : Int) + 1)).toNat = A.length + 1 := by omega
    rw [this]
    exact hdropN
  have htakeC : jsTake players ((A.length : Int)) = A := by
    unfold jsTake
    rw [if_neg (by omega)]
    have : ((A.length : Int)).toNat = A.length := by omega
    rw [this, ← hsplit']
    have hA : A = (A ++ [dp] ++ B).take A.length := by
      rw [List.append_assoc, List.take_append_of_le_length (by simp)]
      simp
    rw [← hA]
  have hspec : specHighestBidder players dealerId predictions
      = ((B ++ (A ++ [dp])).find?
          (fun p => predictions.lookup p.id
            == some (specMaxBid predictions))).map Player.id := by
    unfold specHighestBidder
    rw [hidx]
    show ((players.drop (A.length + 1) ++ players.take (A.length + 1)).find?
        (fun p => predictions.lookup p.id
          == some (specMaxBid predictions))).map Player.id = _
    rw [hdropN, htakeN]
  have hcode : getHighestBidder players dealerId predictions
      = (if (bidsFold predictions).2.length = 1 then
           (bidsFold predictions).2.head?
         else
           match (B ++ A).find?
               (fun p => (bidsFold predictions).2.contains p.id) with
           | some p => some p.id
           | none => none) := by
    rw [getHighestBidder_eq, hjs, hdropC, htakeC]
  have hmem_rot : ∀ q : Player, q ∈ players ↔ q ∈ B ++ (A ++ [dp]) := by
    intro q
    rw [hsplit]
    constructor
    · intro hq
      rcases List.mem_append.1 hq with h1 | h1
      · exact List.mem_append.2 (Or.inr (List.mem_append.2 (Or.inl h1)))
      · rcases List.mem_cons.1 h1 with rfl | h2
        · exact List.mem_append.2
            (Or.inr (List.mem_append.2 (Or.inr (by simp))))
        · exact List.mem_append.2 (Or.inl h2)
    · intro hq
      rcases List.mem_append.1 hq with h1 | h1
      · exact List.mem_append.2 (Or.inr (List.mem_cons.2 (Or.inr h1)))
      · rcases List.mem_append.1 h1 with h2 | h2
        · exact List.mem_append.2 (Or.inl h2)
        · have hqdp : q = dp := by simpa using h2
          subst hqdp
          exact List.mem_append.2 (Or.inr (List.mem_cons_self q B))
  by_cases hlen : (bidsFold predictions).2.length = 1
  · -- a unique highest bidder is returned directly
    obtain ⟨t0, ht0⟩ := List.length_eq_one.1 hlen
    have ht0mem : (t0, specMaxBid predictions) ∈ predictions := by
      apply (htiedmem t0).1
      rw [ht0]
      simp
    have ht0p : t0 ∈ players.map Player.id :=
      (hmem_iff t0).1 (List.mem_map_of_mem Prod.fst ht0mem)
    obtain ⟨pt, hptmem, hptid⟩ := List.mem_map.1 ht0p
    have hptlook : predictions.lookup pt.id = some (specMaxBid predictions) := by
      rw [hptid]
      exact lookup_of_mem_nodup _ _ _ hknd ht0mem
    have huniq : ∀ y ∈ B ++ (A ++ [dp]),
        (fun p => predictions.lookup p.id == some (specMaxBid predictions)) y
          = true → y = pt := by
      intro y hy hpy
      have hyp : y ∈ players := (hmem_rot y).2 hy
      have hly : predictions.lookup y.id = some (specMaxBid predictions) := by
        simpa using hpy
      have hyt : y.id ∈ (bidsFold predictions).2 := (hlook y hyp).1 hly
      rw [ht0] at hyt
      have hyid : y.id = t0 := by simpa using hyt
      exact player_id_inj players hnd y pt hyp hptmem (hyid.trans hptid.symm)
    have hfind : (B ++ (A ++ [dp])).find?
        (fun p => predictions.lookup p.id == some (specMaxBid predictions))
          = some pt :=
      find?_eq_some_of_unique _ _ pt ((hmem_rot pt).1 hptmem)
        (by simp [hptlook]) huniq
    have hcodeval : getHighestBidder players dealerId predictions = some t0 := by
      rw [hcode, if_pos hlen, ht0]
      rfl
    refine ⟨?_, pt, hptmem, by rw [hcodeval, hptid], hptlook⟩
    rw [hcodeval, hspec, hfind]
    simp [hptid]
  · -- several tied highest bidders: rotation after the dealer decides
    have h2le : 2 ≤ (bidsFold predictions).2.length := by
      have h1le : 0 < (bidsFold predictions).2.length :=
        List.length_pos.2 htiedne
      omega
    have hexX : ∃ tX ∈ (bidsFold predictions).2, tX ≠ dealerId := by
      match hm : (bidsFold predictions).2, h2le, htiednd with
      | a :: b :: tl, _, hndl =>
        have hab : a ≠ b := by
          simp only [List.nodup_cons] at hndl
          intro h
          exact hndl.1 (h ▸ List.mem_cons_self b tl)
        by_cases ha : a = dealerId
        · exact ⟨b, List.mem_cons.2 (Or.inr (List.mem_cons_self b tl)),
            fun hb => hab (ha.trans hb.symm)⟩
        · exact ⟨a, List.mem_cons_self a (b :: tl), ha⟩
    obtain ⟨tX, htXmem, htXne⟩ := hexX
    have htXp : tX ∈ players.map Player.id :=
      (hmem_iff tX).1
        (List.mem_map_of_mem Prod.fst ((htiedmem tX).1 htXmem))
    obtain ⟨pX, hpXmem, hpXid⟩ := List.mem_map.1 htXp
    have hpXBA : pX ∈ B ++ A := by
      have := hsplit ▸ hpXmem
      rcases List.mem_append.1 this with h1 | h1
      · exact List.mem_append.2 (Or.inr h1)
      · rcases List.mem_cons.1 h1 with rfl | h2
        · exact absurd (hpXid.symm ▸ hdpid) (hpXid ▸ htXne)
        · exact List.mem_append.2 (Or.inl h2)
    have hpXpred : (fun p => (bidsFold predictions).2.contains p.id) pX
        = true := by
      simp only [hpXid]
      exact List.elem_iff.2 htXmem
    cases hfind : (B ++ A).find?
        (fun p => (bidsFold predictions).2.contains p.id) with
    | none =>
      exact absurd hfind (find?_ne_none_of_mem _ _ pX hpXBA hpXpred)
    | some pf =>
      have hpfmem : pf ∈ B ++ A := List.mem_of_find?_eq_some hfind
      have hpfp : pf ∈ players := by
        rcases List.mem_append.1 hpfmem with h1 | h1
        · rw [hsplit]
          exact List.mem_append.2 (Or.inr (List.mem_cons.2 (Or.inr h1)))
        · rw [hsplit]
          exact List.mem_append.2 (Or.inl h1)
      have hpfpred : pf.id ∈ (bidsFold predictions).2 := by
        have := List.find?_some hfind
        simpa [List.elem_iff] using this
      have hpflook : predictions.lookup pf.id
          = some (specMaxBid predictions) := (hlook pf hpfp).2 hpfpred
      have hcodeval : getHighestBidder players dealerId predictions
          = some pf.id := by
        rw [hcode, if_neg hlen, hfind]
      have hpred_eq : ∀ q ∈ B ++ A,
          (fun p => (bidsFold predictions).2.contains p.id) q
            = (fun p => predictions.lookup p.id
                == some (specMaxBid predictions)) q := by
        intro q hq
        have hqp : q ∈ players := by
          rcases List.mem_append.1 hq with h1 | h1
          · rw [hsplit]
            exact List.mem_append.2 (Or.inr (List.mem_cons.2 (Or.inr h1)))
          · rw [hsplit]
            exact List.mem_append.2 (Or.inl h1)
        by_cases hqt : q.id ∈ (bidsFold predictions).2
        · have h1 : (bidsFold predictions).2.contains q.id = true :=
            List.elem_iff.2 hqt
          have h2 : predictions.lookup q.id = some (specMaxBid predictions) :=
            (hlook q hqp).2 hqt
          show (bidsFold predictions).2.contains q.id
            = (predictions.lookup q.id == some (specMaxBid predictions))
          rw [h1, h2]
          simp
        · have h1 : (bidsFold predictions).2.contains q.id = false := by
            by_contra h
            have hb : (bidsFold predictions).2.contains q.id = true := by
              revert h
              cases (bidsFold predictions).2.contains q.id <;> simp
            exact hqt (List.elem_iff.1 hb)
          have h2 : (predictions.lookup q.id
              == some (specMaxBid predictions)) = false := by
            have hne : predictions.lookup q.id
                ≠ some (specMaxBid predictions) :=
              fun h => hqt ((hlook q hqp).1 h)
            exact beq_eq_false_iff_ne.mpr hne
          show (bidsFold predictions).2.contains q.id
            = (predictions.lookup q.id == some (specMaxBid predictions))
          rw [h1, h2]
      have hfindspec : (B ++ A).find?
          (fun p => predictions.lookup p.id == some (specMaxBid predictions))
            = some pf := by
        rw [← find?_congrPred _ _ _ hpred_eq]
        exact hfind
      have hspecval : specHighestBidder players dealerId predictions
          = some pf.id := by
        rw [hspec, ← List.append_assoc]
        rw [find?_append_some _ (B ++ A) [dp] pf hfindspec]
        rfl
      exact ⟨hcodeval.trans hspecval.symm, pf, hpfp, hcodeval, hpflook⟩

/-- Witness: the C4 claim instantiated at a tied bidding round — Ben and
Cleo both bid 3 with Dana dealing, and the seat after the dealer (Ben)
wins the tie. -/
theorem getHighestBidder_correct_witness :
    getHighestBidder exPlayers "d" exBids
      = specHighestBidder exPlayers "d" exBids
    ∧ ∃ p ∈ exPlayers, getHighestBidder exPlayers "d" exBids = some p.id
        ∧ exBids.lookup p.id = some (specMaxBid exBids) :=
  getHighestBidder_correct exPlayers "d" exBids (by decide) (by decide)
    (by decide) (by decide) (by decide)

/-- C5: the first copy's `makePrediction` rejects any bid from a connection
other than the current actor during the prediction phase with a
`'Not your turn'` error sent only to that connection and the game state
unchanged — but the second (deployed) copy's `makePrediction` has no turn
check at all: at a concrete bidding state where Anna is the current actor,
a bid submitted by Ben is recorded and the state changes, contradicting the
claim on the deployed handler. -/
theorem makePrediction_turnCheck :
    (∀ (g : PredGame) (pid : String) (prediction : Int),
        g.phase = Phase.makingPredictions → some pid ≠ g.currentPlayer →
        makePrediction_v1 g pid prediction = (g, some "Not your turn"))
    ∧ (makePrediction_v2 exBidGame "b" 2).predictions = [("b", 2)]
    ∧ makePrediction_v2 exBidGame "b" 2 ≠ exBidGame := by
  refine ⟨?_, by decide, by decide⟩
  intro g pid prediction h1 h2
  unfold makePrediction_v1
  rw [if_neg (by simp [h1]), if_pos h2]

/-- Witness: the first copy's rejection applied at a concrete out-of-turn
bid (Ben bids while it is Anna's turn). -/
theorem makePrediction_turnCheck_witness :
    makePrediction_v1 exBidGame "b" 2 = (exBidGame, some "Not your turn") :=
  makePrediction_turnCheck.1 exBidGame "b" 2 (by decide) (by decide)

theorem evaluateTrick_isSome (l : List Play) (hne : l ≠ [])
    (trumpSuit leadSuit : Option Suit) (roundNumber : Nat) :
    ∃ w, evaluateTrick l trumpSuit leadSuit roundNumber = some w := by
  cases l with
  | nil => exact absurd rfl hne
  | cons h t =>
    simp only [evaluateTrick]
    by_cases hr : isSingleCardRound roundNumber
    · exact ⟨_, by rw [if_pos hr]⟩
    · exact ⟨_, by rw [if_neg hr]⟩

/-- C6: the second copy's `playCard` guards the reveal window.  First, while
`isEvaluatingTrick` holds (raised when the 4th card lands and cleared only
by the deferred reveal continuation) every `playCard` submission leaves the
game state unchanged.  Second, a player holding the per-trick card lock is
rejected with the duplicate-play error and no state change.  Third, an
accepted play sets the submitting player's lock (and when it is the 4th
card of the trick it raises `isEvaluatingTrick`), so a second submission by
the same actor before the lock clears is rejected with the duplicate-play
error and leaves the state unchanged by the second submission. -/
theorem playCard_trickLock :
    (∀ (g : PlayGame) (pid : String) (card : Card),
        g.isEvaluatingTrick = true → (playCard_v2 g pid card).1 = g)
    ∧ (∀ (g : PlayGame) (pid : String) (card : Card),
        g.phase = Phase.playing → g.locks.contains pid = true →
        playCard_v2 g pid card
          = (g, some "Already played a card in this trick"))
    ∧ (∀ (g : PlayGame) (pid : String) (card : Card),
        g.phase = Phase.playing → g.locks.contains pid = false →
        some pid = g.currentPlayer → g.isEvaluatingTrick = false →
        validatePlay g pid card = none →
        ∃ g', playCard_v2 g pid card = (g', none)
          ∧ g'.phase = Phase.playing
          ∧ g'.locks.contains pid = true
          ∧ (g.currentTrick.length = 3 → g'.isEvaluatingTrick = true)
          ∧ ∀ card2 : Card, playCard_v2 g' pid card2
              = (g', some "Already played a card in this trick")) := by
  have hdup : ∀ (g : PlayGame) (pid : String) (card : Card),
      g.phase = Phase.playing → g.locks.contains pid = true →
      playCard_v2 g pid card
        = (g, some "Already played a card in this trick") := by
    intro g pid card hphase hlock
    unfold playCard_v2
    rw [if_neg (by simp [hphase]), if_pos hlock]
  refine ⟨?_, hdup, ?_⟩
  · intro g pid card h
    unfold playCard_v2
    split_ifs <;> first | rfl | simp_all
  · intro g pid card hphase hlock hturn heval hvalid
    have hcontains : (g.locks ++ [pid]).contains pid = true :=
      List.elem_iff.2 (List.mem_append.2 (Or.inr (by simp)))
    unfold playCard_v2
    rw [if_neg (by simp [hphase]), if_neg (by rw [hlock]; simp),
      if_neg (by simp [hturn]), if_neg (by rw [heval]; simp), hvalid]
    dsimp only
    by_cases hc1 : (g.currentTrick ++ [Play.mk pid card]).length = 1
    · rw [if_pos hc1]
      have hL : g.currentTrick.length + 1 = 1 := by simpa using hc1
      have h4 : ¬ ((g.currentTrick ++ [Play.mk pid card]).length = 4) := by
        simp only [List.length_append, List.length_cons, List.length_nil]
        omega
      rw [if_neg h4]
      refine ⟨_, rfl, hphase, hcontains, ?_, ?_⟩
      · intro h3
        omega
      · intro card2
        exact hdup _ pid card2 hphase hcontains
    · rw [if_neg hc1]
      by_cases h4 : (g.currentTrick ++ [Play.mk pid card]).length = 4
      · rw [if_pos h4]
        obtain ⟨w, hw⟩ := evaluateTrick_isSome
          (g.currentTrick ++ [Play.mk pid card]) (by simp)
          g.trumpSuit g.leadSuit g.roundNumber
        rw [hw]
        dsimp only
        refine ⟨_, rfl, hphase, hcontains, fun _ => rfl, ?_⟩
        intro card2
        exact hdup _ pid card2 hphase hcontains
      · rw [if_neg h4]
        dsimp only
        refine ⟨_, rfl, hphase, hcontains, ?_, ?_⟩
        · intro h3
          exact absurd (by simp [h3]) h4
        · intro card2
          exact hdup _ pid card2 hphase hcontains

/-- Witness: the acceptance-then-duplicate clause of C6 applied at a
concrete playing state where Anna legally plays her queen of hearts. -/
theorem playCard_trickLock_witness :
    ∃ g', playCard_v2 exPlayGame "a" ⟨Suit.hearts, CardValue.vQ⟩ = (g', none)
      ∧ g'.phase = Phase.playing
      ∧ g'.locks.contains "a" = true
      ∧ (exPlayGame.currentTrick.length = 3 → g'.isEvaluatingTrick = true)
      ∧ ∀ card2 : Card, playCard_v2 g' "a" card2
          = (g', some "Already played a card in this trick") :=
  playCard_trickLock.2.2 exPlayGame "a" ⟨Suit.hearts, CardValue.vQ⟩
    (by decide) (by decide) (by decide) (by decide) (by decide)

theorem transferKey_spec {α : Type} (m : String → Option α)
    (oldId newId : String) (hne : newId ≠ oldId) (hfresh : m newId = none) :
    transferKey m oldId newId newId = m oldId
    ∧ transferKey m oldId newId oldId = none
    ∧ ∀ k, k ≠ oldId → k ≠ newId → transferKey m oldId newId k = m k := by
  cases hmo : m oldId with
  | none =>
    refine ⟨?_, ?_, fun k h1 h2 => ?_⟩ <;> simp [transferKey, hmo, hfresh]
  | some v =>
    refine ⟨?_, ?_, fun k h1 h2 => ?_⟩
    · simp [transferKey, hmo, hne]
    · simp [transferKey, hmo]
    · simp [transferKey, hmo, h1, h2]

theorem transferTricks_spec (m : String → Option Int)
    (oldId newId : String) (hne : newId ≠ oldId) (hfresh : m newId = none) :
    transferTricks m oldId newId newId = m oldId
    ∧ transferTricks m oldId newId oldId = none
    ∧ ∀ k, k ≠ oldId → k ≠ newId → transferTricks m oldId newId k = m k := by
  cases hmo : m oldId with
  | none =>
    refine ⟨?_, ?_, fun k h1 h2 => ?_⟩ <;> simp [transferTricks, hmo, hfresh]
  | some v =>
    refine ⟨?_, ?_, fun k h1 h2 => ?_⟩
    · simp [transferTricks, hmo, hne, hfresh]
    · simp [transferTricks, hmo]
    · simp [transferTricks, hmo, h1, h2]

theorem updateFirst_players (players : List Player) (oldId newId : String) :
    (players.map Player.id).Nodup → (∀ q ∈ players, q.id ≠ newId) →
    ∀ pstar, pstar ∈ players → pstar.id = oldId →
    ((updateFirst (fun p => p.id == oldId)
        (fun p => { p with id := newId, disconnected := false })
        players).map Player.id).Nodup
    ∧ (∃ q ∈ updateFirst (fun p => p.id == oldId)
        (fun p => { p with id := newId, disconnected := false }) players,
        q.id = newId ∧ q.name = pstar.name ∧ q.disconnected = false)
    ∧ (∀ q ∈ updateFirst (fun p => p.id == oldId)
        (fun p => { p with id := newId, disconnected := false }) players,
        q.id ≠ oldId)
    ∧ (updateFirst (fun p => p.id == oldId)
        (fun p => { p with id := newId, disconnected := false })
          players).map Player.name = players.map Player.name
    ∧ (∀ x, x ∈ (updateFirst (fun p => p.id == oldId)
        (fun p => { p with id := newId, disconnected := false })
          players).map Player.id → x ∈ players.map Player.id ∨ x = newId) := by
  induction players with
  | nil =>
    intro _ _ pstar hp _
    cases hp
  | cons q rest ih =>
    intro hnd hnew pstar hp hpid
    simp only [List.map_cons, List.nodup_cons] at hnd
    obtain ⟨hqni, hndr⟩ := hnd
    have hnewr : ∀ r ∈ rest, r.id ≠ newId :=
      fun r hr => hnew r (List.mem_cons.2 (Or.inr hr))
    by_cases hq : q.id = oldId
    · have hupd : updateFirst (fun p => p.id == oldId)
          (fun p => { p with id := newId, disconnected := false })
          (q :: rest)
            = { q with id := newId, disconnected := false } :: rest := by
        unfold updateFirst
        rw [if_pos (by simp [hq])]
      have hps : pstar = q := by
        rcases List.mem_cons.1 hp with rfl | h1
        · rfl
        · exfalso
          exact hqni ((hq.trans hpid.symm) ▸ List.mem_map_of_mem Player.id h1)
      have holdni : oldId ∉ rest.map Player.id := hq ▸ hqni
      refine ⟨?_, ?_, ?_, ?_, ?_⟩
      · rw [hupd]
        simp only [List.map_cons, List.nodup_cons]
        refine ⟨?_, hndr⟩
        intro hmem
        rcases List.mem_map.1 hmem with ⟨r, hr, hrid⟩
        exact hnewr r hr hrid
      · refine ⟨{ q with id := newId, disconnected := false }, ?_, rfl, ?_, rfl⟩
        · rw [hupd]
          exact List.mem_cons_self _ _
        · rw [hps]
      · rw [hupd]
        intro r hr
        rcases List.mem_cons.1 hr with rfl | h1
        · show newId ≠ oldId
          intro h
          exact hnew q (List.mem_cons_self q rest) (hq ▸ h.symm)
        · intro h
          exact holdni (h ▸ List.mem_map_of_mem Player.id h1)
      · rw [hupd]
        rfl
      · rw [hupd]
        intro x hx
        simp only [List.map_cons, List.mem_cons] at hx ⊢
        rcases hx with rfl | h1
        · right; rfl
        · left; right; exact h1
    · have hupd : updateFirst (fun p => p.id == oldId)
          (fun p => { p with id := newId, disconnected := false })
          (q :: rest)
            = q :: updateFirst (fun p => p.id == oldId)
                (fun p => { p with id := newId, disconnected := false })
                rest := by
        show (if (q.id == oldId) = true
            then { q with id := newId, disconnected := false } :: rest
            else q :: updateFirst (fun p => p.id == oldId)
              (fun p => { p with id := newId, disconnected := false }) rest)
          = _
        rw [if_neg (by simp [hq])]
      have hpsr : pstar ∈ rest := by
        rcases List.mem_cons.1 hp with rfl | h1
        · exact absurd hpid hq
        · exact h1
      obtain ⟨i1, i2, i3, i4, i5⟩ := ih hndr hnewr pstar hpsr hpid
      refine ⟨?_, ?_, ?_, ?_, ?_⟩
      · rw [hupd]
        simp only [List.map_cons, List.nodup_cons]
        refine ⟨?_, i1⟩
        intro hmem
        rcases i5 q.id hmem with h1 | h1
        · exact hqni h1
        · exact hnew q (List.mem_cons_self q rest) h1
      · obtain ⟨r, hr, hr1, hr2, hr3⟩ := i2
        exact ⟨r, hupd ▸ List.mem_cons.2 (Or.inr hr), hr1, hr2, hr3⟩
      · rw [hupd]
        intro r hr
        rcases List.mem_cons.1 hr with rfl | h1
        · exact hq
        · exact i3 r h1
      · rw [hupd]
        simp only [List.map_cons, i4]
      · rw [hupd]
        intro x hx
        simp only [List.map_cons, List.mem_cons] at hx ⊢
        rcases hx with rfl | h1
        · left; left; rfl
        · rcases i5 x h1 with h2 | h2
          · left; right; exact h2
          · right; exact h2

theorem remapTrick_cards (trick : List Play) (oldId newId : String) :
    (trick.map (fun pl => if pl.playerId = oldId
        then { pl with playerId := newId } else pl)).map Play.card
      = trick.map Play.card := by
  induction trick with
  | nil => rfl
  | cons pl t ih =>
    simp only [List.map_cons, ih]
    by_cases h : pl.playerId = oldId <;> simp [h]

theorem remapTrick_no_old (trick : List Play) (oldId newId : String)
    (hne : newId ≠ oldId) :
    ∀ pl ∈ trick.map (fun pl => if pl.playerId = oldId
        then { pl with playerId := newId } else pl), pl.playerId ≠ oldId := by
  intro pl hpl
  rcases List.mem_map.1 hpl with ⟨pl0, _, rfl⟩
  by_cases h : pl0.playerId = oldId <;> simp [h, hne]

theorem remapTrick_count (trick : List Play) (oldId newId : String)
    (hnew : ∀ pl ∈ trick, pl.playerId ≠ newId) :
    (trick.map (fun pl => if pl.playerId = oldId
        then { pl with playerId := newId } else pl)).countP
        (fun pl => pl.playerId == newId)
      = trick.countP (fun pl => pl.playerId == oldId) := by
  induction trick with
  | nil => rfl
  | cons pl t ih =>
    have h1 := hnew pl (List.mem_cons_self pl t)
    have ht : ∀ pl ∈ t, pl.playerId ≠ newId :=
      fun r hr => hnew r (List.mem_cons.2 (Or.inr hr))
    simp only [List.map_cons, List.countP_cons]
    rw [ih ht]
    congr 1
    by_cases h : pl.playerId = oldId <;> simp [h, h1]

/-- C7: the remap transaction of the second copy's `rejoinGame` moves a
player's entries in `hands`, `predictions`, `scores`, `plumps` and `tricks`
from the old connection handle to the new one with the stored values intact
— no entry is lost or duplicated, other players' entries are untouched —
rekeys the player's plays in `currentTrick` without changing the cards,
updates `currentPlayer` and `highestBidder` exactly when they referenced
the old handle, and afterwards exactly one player record (connected, same
name) carries the new handle while no state references the old one. -/
theorem rejoinGame_preserves (g : RGame) (playerName newId : String)
    (player : Player)
    (hfind : g.players.find? (fun p => p.name == playerName) = some player)
    (hnd : (g.players.map Player.id).Nodup)
    (hnew : ∀ q ∈ g.players, q.id ≠ newId)
    (hfh : g.hands newId = none) (hfp : g.predictions newId = none)
    (hfs : g.scores newId = none) (hfpl : g.plumps newId = none)
    (hft : g.tricks newId = none)
    (htrick : ∀ pl ∈ g.currentTrick, pl.playerId ≠ newId) :
    ∃ g', rejoinGame_v2 g playerName newId = some g'
      ∧ g'.hands newId = g.hands player.id
      ∧ g'.hands player.id = none
      ∧ (∀ k, k ≠ player.id → k ≠ newId → g'.hands k = g.hands k)
      ∧ g'.predictions newId = g.predictions player.id
      ∧ g'.predictions player.id = none
      ∧ (∀ k, k ≠ player.id → k ≠ newId → g'.predictions k = g.predictions k)
      ∧ g'.scores newId = g.scores player.id
      ∧ g'.scores player.id = none
      ∧ (∀ k, k ≠ player.id → k ≠ newId → g'.scores k = g.scores k)
      ∧ g'.plumps newId = g.plumps player.id
      ∧ g'.plumps player.id = none
      ∧ (∀ k, k ≠ player.id → k ≠ newId → g'.plumps k = g.plumps k)
      ∧ g'.tricks newId = g.tricks player.id
      ∧ g'.tricks player.id = none
      ∧ (∀ k, k ≠ player.id → k ≠ newId → g'.tricks k = g.tricks k)
      ∧ g'.currentPlayer
          = (if g.currentPlayer = some player.id then some newId
             else g.currentPlayer)
      ∧ g'.highestBidder
          = (if g.highestBidder = some player.id then some newId
             else g.highestBidder)
      ∧ g'.currentTrick.map Play.card = g.currentTrick.map Play.card
      ∧ (∀ pl ∈ g'.currentTrick, pl.playerId ≠ player.id)
      ∧ g'.currentTrick.countP (fun pl => pl.playerId == newId)
          = g.currentTrick.countP (fun pl => pl.playerId == player.id)
      ∧ (g'.players.map Player.id).Nodup
      ∧ (∃ q ∈ g'.players, q.id = newId ∧ q.name = player.name
          ∧ q.disconnected = false)
      ∧ (∀ q ∈ g'.players, q.id ≠ player.id)
      ∧ g'.players.map Player.name = g.players.map Player.name := by
  have hpmem : player ∈ g.players := List.mem_of_find?_eq_some hfind
  have hnewold : newId ≠ player.id := fun h => hnew player hpmem h.symm
  obtain ⟨u1, u2, u3, u4, u5⟩ :=
    updateFirst_players g.players player.id newId hnd hnew player hpmem rfl
  obtain ⟨th1, th2, th3⟩ := transferKey_spec g.hands player.id newId hnewold hfh
  obtain ⟨tp1, tp2, tp3⟩ :=
    transferKey_spec g.predictions player.id newId hnewold hfp
  obtain ⟨ts1, ts2, ts3⟩ := transferKey_spec g.scores player.id newId hnewold hfs
  obtain ⟨tl1, tl2, tl3⟩ := transferKey_spec g.plumps player.id newId hnewold hfpl
  obtain ⟨tt1, tt2, tt3⟩ :=
    transferTricks_spec g.tricks player.id newId hnewold hft
  have hresult : rejoinGame_v2 g playerName newId
      = some { players := updateFirst (fun p => p.id == player.id)
                 (fun p => { p with id := newId, disconnected := false })
                 g.players
               hands := transferKey g.hands player.id newId
               predictions := transferKey g.predictions player.id newId
               scores := transferKey g.scores player.id newId
               plumps := transferKey g.plumps player.id newId
               tricks := transferTricks g.tricks player.id newId
               currentTrick := g.currentTrick.map
                 (fun pl => if pl.playerId = player.id
                    then { pl with playerId := newId } else pl)
               currentPlayer :=
                 if g.currentPlayer = some player.id then some newId
                 else g.currentPlayer
               currentPlayerName :=
                 if g.currentPlayer = some player.id then some playerName
                 else g.currentPlayerName
               highestBidder :=
                 if g.highestBidder = some player.id then some newId
                 else g.highestBidder } := by
    unfold rejoinGame_v2
    rw [hfind]
    by_cases hcp : g.currentPlayer = some player.id <;>
      by_cases hhb : g.highestBidder = some player.id <;>
      simp [hcp, hhb]
  refine ⟨_, hresult, th1, th2, th3, tp1, tp2, tp3, ts1, ts2, ts3,
    tl1, tl2, tl3, tt1, tt2, tt3, rfl, rfl,
    remapTrick_cards g.currentTrick player.id newId,
    remapTrick_no_old g.currentTrick player.id newId hnewold,
    remapTrick_count g.currentTrick player.id newId htrick,
    u1, ?_, u3, u4⟩
  obtain ⟨q, hq, hq1, hq2, hq3⟩ := u2
  exact ⟨q, hq, hq1, hq2, hq3⟩

/-- Witness: the C7 remap claim applied at the concrete state where Cleo
rejoins under the fresh handle `c2`. -/
theorem rejoinGame_preserves_witness :
    ∃ g', rejoinGame_v2 exRGame "Cleo" "c2" = some g'
      ∧ g'.hands "c2" = exRGame.hands (Player.mk "c" "Cleo" false true).id
      ∧ g'.hands (Player.mk "c" "Cleo" false true).id = none
      ∧ (∀ k, k ≠ (Player.mk "c" "Cleo" false true).id → k ≠ "c2" →
          g'.hands k = exRGame.hands k)
      ∧ g'.predictions "c2"
          = exRGame.predictions (Player.mk "c" "Cleo" false true).id
      ∧ g'.predictions (Player.mk "c" "Cleo" false true).id = none
      ∧ (∀ k, k ≠ (Player.mk "c" "Cleo" false true).id → k ≠ "c2" →
          g'.predictions k = exRGame.predictions k)
      ∧ g'.scores "c2" = exRGame.scores (Player.mk "c" "Cleo" false true).id
      ∧ g'.scores (Player.mk "c" "Cleo" false true).id = none
      ∧ (∀ k, k ≠ (Player.mk "c" "Cleo" false true).id → k ≠ "c2" →
          g'.scores k = exRGame.scores k)
      ∧ g'.plumps "c2" = exRGame.plumps (Player.mk "c" "Cleo" false true).id
      ∧ g'.plumps (Player.mk "c" "Cleo" false true).id = none
      ∧ (∀ k, k ≠ (Player.mk "c" "Cleo" false true).id → k ≠ "c2" →
          g'.plumps k = exRGame.plumps k)
      ∧ g'.tricks "c2" = exRGame.tricks (Player.mk "c" "Cleo" false true).id
      ∧ g'.tricks (Player.mk "c" "Cleo" false true).id = none
      ∧ (∀ k, k ≠ (Player.mk "c" "Cleo" false true).id → k ≠ "c2" →
          g'.tricks k = exRGame.tricks k)
      ∧ g'.currentPlayer
          = (if exRGame.currentPlayer
                = some (Player.mk "c" "Cleo" false true).id then some "c2"
             else exRGame.currentPlayer)
      ∧ g'.highestBidder
          = (if exRGame.highestBidder
                = some (Player.mk "c" "Cleo" false true).id then some "c2"
             else exRGame.highestBidder)
      ∧ g'.currentTrick.map Play.card = exRGame.currentTrick.map Play.card
      ∧ (∀ pl ∈ g'.currentTrick,
          pl.playerId ≠ (Player.mk "c" "Cleo" false true).id)
      ∧ g'.currentTrick.countP (fun pl => pl.playerId == "c2")
          = exRGame.currentTrick.countP
              (fun pl => pl.playerId == (Player.mk "c" "Cleo" false true).id)
      ∧ (g'.players.map Player.id).Nodup
      ∧ (∃ q ∈ g'.players, q.id = "c2"
          ∧ q.name = (Player.mk "c" "Cleo" false true).name
          ∧ q.disconnected = false)
      ∧ (∀ q ∈ g'.players, q.id ≠ (Player.mk "c" "Cleo" false true).id)
      ∧ g'.players.map Player.name = exRGame.players.map Player.name :=
  rejoinGame_preserves exRGame "Cleo" "c2" (Player.mk "c" "Cleo" false true)
    (by decide) (by decide) (by decide) (by decide) (by decide) (by decide)
    (by decide) (by decide) (by decide)

/-- C8: `joinGame` rejects a join, leaving the registry unchanged, when the
game does not exist or already has 4 players; a game that has left the
waiting phase is likewise rejected, because once started a game always has
4 players (the stated invariant — `startGame` requires exactly 4 players
and players are never removed), so the full-game guard fires; otherwise the
player is appended to the fixed-order player list with fresh score and
plump counters and no other game is touched. -/
theorem joinGame_guard (games : String → Option JGame)
    (gameId pid playerName : String)
    (hInv : ∀ game, games gameId = some game →
      game.phase ≠ Phase.waitingForPlayers → 4 ≤ game.players.length) :
    (games gameId = none →
       joinGame games gameId pid playerName = (games, some "Game not found"))
    ∧ (∀ game, games gameId = some game → 4 ≤ game.players.length →
       joinGame games gameId pid playerName = (games, some "Game is full"))
    ∧ (∀ game, games gameId = some game →
       game.phase ≠ Phase.waitingForPlayers →
       joinGame games gameId pid playerName = (games, some "Game is full"))
    ∧ (∀ game, games gameId = some game → game.players.length < 4 →
       ∃ game', (joinGame games gameId pid playerName).2 = none
         ∧ (joinGame games gameId pid playerName).1 gameId = some game'
         ∧ game'.players = game.players
             ++ [Player.mk pid playerName false false]
         ∧ game'.phase = game.phase
         ∧ game'.scores pid = some 0
         ∧ game'.plumps pid = some 0
         ∧ (∀ k, k ≠ pid → game'.scores k = game.scores k
             ∧ game'.plumps k = game.plumps k)
         ∧ ∀ gid2, gid2 ≠ gameId →
             (joinGame games gameId pid playerName).1 gid2 = games gid2) := by
  have hfull : ∀ game, games gameId = some game → 4 ≤ game.players.length →
      joinGame games gameId pid playerName = (games, some "Game is full") := by
    intro game h hful
    unfold joinGame
    rw [h]
    dsimp only
    rw [if_pos hful]
  refine ⟨?_, hfull, ?_, ?_⟩
  · intro h
    unfold joinGame
    rw [h]
  · intro game h hph
    exact hfull game h (hInv game h hph)
  · intro game h hlt
    unfold joinGame
    rw [h]
    dsimp only
    rw [if_neg (by omega)]
    refine ⟨{ game with
        players := game.players ++ [Player.mk pid playerName false false]
        scores := fun k => if k = pid then some 0 else game.scores k
        plumps := fun k => if k = pid then some 0 else game.plumps k },
      rfl, ?_, rfl, rfl, ?_, ?_, ?_, ?_⟩
    · simp
    · simp
    · simp
    · intro k hk
      constructor <;> simp [hk]
    · intro gid2 hg2
      simp [hg2]

/-- Witness: the C8 append branch applied at the one-player waiting game
`G1`, joined by Ben. -/
theorem joinGame_guard_witness :
    ∃ game', (joinGame exGames "G1" "b" "Ben").2 = none
      ∧ (joinGame exGames "G1" "b" "Ben").1 "G1" = some game'
      ∧ game'.players = exJGame.players ++ [Player.mk "b" "Ben" false false]
      ∧ game'.phase = exJGame.phase
      ∧ game'.scores "b" = some 0
      ∧ game'.plumps "b" = some 0
      ∧ (∀ k, k ≠ "b" → game'.scores k = exJGame.scores k
          ∧ game'.plumps k = exJGame.plumps k)
      ∧ ∀ gid2, gid2 ≠ "G1" →
          (joinGame exGames "G1" "b" "Ben").1 gid2 = exGames gid2 :=
  (joinGame_guard exGames "G1" "b" "Ben"
    (by
      intro game hg hph
      exfalso
      apply hph
      have hgame : exJGame = game := by simpa [exGames] using hg
      rw [← hgame]
      rfl)).2.2.2 exJGame (by simp [exGames]) (by simp [exJGame])

theorem updateFirst_mark (players : List Player) (pid : String) (p : Player)
    (hp : p ∈ players) (hpid : p.id = pid) :
    ∃ q ∈ updateFirst (fun r => r.id == pid)
        (fun r => { r with disconnected := true }) players,
      q.id = pid ∧ q.disconnected = true := by
  induction players with
  | nil => cases hp
  | cons a rest ih =>
    by_cases ha : a.id = pid
    · refine ⟨{ a with disconnected := true }, ?_, ha, rfl⟩
      show _ ∈ (if (a.id == pid) = true
          then { a with disconnected := true } :: rest
          else a :: updateFirst (fun r => r.id == pid)
            (fun r => { r with disconnected := true }) rest)
      rw [if_pos (by simp [ha])]
      exact List.mem_cons_self _ _
    · rcases List.mem_cons.1 hp with rfl | h1
      · exact absurd hpid ha
      · obtain ⟨q, hq, h2, h3⟩ := ih h1
        refine ⟨q, ?_, h2, h3⟩
        show _ ∈ (if (a.id == pid) = true
            then { a with disconnected := true } :: rest
            else a :: updateFirst (fun r => r.id == pid)
              (fun r => { r with disconnected := true }) rest)
        rw [if_neg (by simp [ha])]
        exact List.mem_cons.2 (Or.inr hq)

theorem updateFirst_byName (players : List Player)
    (playerName newId : String) (player : Player)
    (hfind : players.find? (fun p => p.name == playerName) = some player) :
    ∃ q ∈ updateFirst (fun p => p.name == playerName)
        (fun p => { p with id := newId, disconnected := false }) players,
      q.id = newId ∧ q.name = player.name ∧ q.disconnected = false := by
  induction players with
  | nil => simp [List.find?] at hfind
  | cons a rest ih =>
    by_cases ha : a.name = playerName
    · have haf : a = player := by
        have := (find?_cons_pos (fun p => p.name == playerName) a rest
          (by simp [ha])).symm.trans hfind
        simpa using this
      refine ⟨{ a with id := newId, disconnected := false }, ?_, rfl,
        by rw [haf], rfl⟩
      show _ ∈ (if (a.name == playerName) = true
          then { a with id := newId, disconnected := false } :: rest
          else a :: updateFirst (fun p => p.name == playerName)
            (fun p => { p with id := newId, disconnected := false }) rest)
      rw [if_pos (by simp [ha])]
      exact List.mem_cons_self _ _
    · have hfind' : rest.find? (fun p => p.name == playerName) = some player :=
        (find?_cons_neg (fun p => p.name == playerName) a rest
          (by simp [ha])).symm.trans hfind
      obtain ⟨q, hq, h1, h2, h3⟩ := ih hfind'
      refine ⟨q, ?_, h1, h2, h3⟩
      show _ ∈ (if (a.name == playerName) = true
          then { a with id := newId, disconnected := false } :: rest
          else a :: updateFirst (fun p => p.name == playerName)
            (fun p => { p with id := newId, disconnected := false }) rest)
      rw [if_neg (by simp [ha])]
      exact List.mem_cons.2 (Or.inr hq)

theorem updateFirst_byName_all_connected (players : List Player)
    (playerName newId : String)
    (hnames : (players.map Player.name).Nodup)
    (hconn : ∀ q ∈ players, q.name ≠ playerName → q.disconnected = false) :
    ∀ q ∈ updateFirst (fun p => p.name == playerName)
        (fun p => { p with id := newId, disconnected := false }) players,
      q.disconnected = false := by
  induction players with
  | nil => intro q hq; simp [updateFirst] at hq
  | cons a rest ih =>
    simp only [List.map_cons, List.nodup_cons] at hnames
    obtain ⟨hani, hndr⟩ := hnames
    intro q hq
    by_cases ha : a.name = playerName
    · rw [show updateFirst (fun p => p.name == playerName)
          (fun p => { p with id := newId, disconnected := false }) (a :: rest)
          = { a with id := newId, disconnected := false } :: rest from by
        show (if (a.name == playerName) = true
            then { a with id := newId, disconnected := false } :: rest
            else a :: updateFirst (fun p => p.name == playerName)
              (fun p => { p with id := newId, disconnected := false }) rest)
          = _
        rw [if_pos (by simp [ha])]] at hq
      rcases List.mem_cons.1 hq with rfl | h1
      · rfl
      · have hqname : q.name ≠ playerName := by
          intro h
          exact hani ((ha ▸ h) ▸ List.mem_map_of_mem Player.name h1)
        exact hconn q (List.mem_cons.2 (Or.inr h1)) hqname
    · rw [show updateFirst (fun p => p.name == playerName)
          (fun p => { p with id := newId, disconnected := false }) (a :: rest)
          = a :: updateFirst (fun p => p.name == playerName)
            (fun p => { p with id := newId, disconnected := false }) rest from by
        show (if (a.name == playerName) = true
            then { a with id := newId, disconnected := false } :: rest
            else a :: updateFirst (fun p => p.name == playerName)
              (fun p => { p with id := newId, disconnected := false }) rest)
          = _
        rw [if_neg (by simp [ha])]] at hq
      rcases List.mem_cons.1 hq with rfl | h1
      · exact hconn q (List.mem_cons_self q rest) ha
      · exact ih hndr
          (fun r hr hrn => hconn r (List.mem_cons.2 (Or.inr hr)) hrn) q h1

theorem updateFirst_byName_keeps_disconnected (players : List Player)
    (playerName newId : String) (q : Player) (hq : q ∈ players)
    (hqn : q.name ≠ playerName) (hqd : q.disconnected = true) :
    (updateFirst (fun p => p.name == playerName)
        (fun p => { p with id := newId, disconnected := false })
        players).any (fun p => p.disconnected) = true := by
  induction players with
  | nil => cases hq
  | cons a rest ih =>
    by_cases ha : a.name = playerName
    · rw [show updateFirst (fun p => p.name == playerName)
          (fun p => { p with id := newId, disconnected := false }) (a :: rest)
          = { a with id := newId, disconnected := false } :: rest from by
        show (if (a.name == playerName) = true
            then { a with id := newId, disconnected := false } :: rest
            else a :: updateFirst (fun p => p.name == playerName)
              (fun p => { p with id := newId, disconnected := false }) rest)
          = _
        rw [if_pos (by simp [ha])]]
      rcases List.mem_cons.1 hq with rfl | h1
      · exact absurd ha hqn
      · exact List.any_eq_true.2 ⟨q, List.mem_cons.2 (Or.inr h1), by simp [hqd]⟩
    · rw [show updateFirst (fun p => p.name == playerName)
          (fun p => { p with id := newId, disconnected := false }) (a :: rest)
          = a :: updateFirst (fun p => p.name == playerName)
            (fun p => { p with id := newId, disconnected := false }) rest from by
        show (if (a.name == playerName) = true
            then { a with id := newId, disconnected := false } :: rest
            else a :: updateFirst (fun p => p.name == playerName)
              (fun p => { p with id := newId, disconnected := false }) rest)
          = _
        rw [if_neg (by simp [ha])]]
      rcases List.mem_cons.1 hq with rfl | h1
      · exact List.any_eq_true.2 ⟨q, List.mem_cons_self q _, by simp [hqd]⟩
      · have := ih h1
        exact List.any_eq_true.2 (by
          rcases List.any_eq_true.1 this with ⟨r, hr, hrd⟩
          exact ⟨r, List.mem_cons.2 (Or.inr hr), hrd⟩)

/-- C9: in the first copy, a disconnect of a seated player marks that player
disconnected, and exactly when the player is the current actor the current
phase is snapshotted into `previousPhase` and the phase becomes Paused; on a
later rejoin the player is marked connected again and the snapshotted phase
is restored precisely when no player in the game remains disconnected.  The
second (deployed) copy's disconnect handler, however, only marks the player
disconnected: at a concrete state where the current actor Anna disconnects,
the phase stays Playing and no snapshot is taken, contradicting the claim
on the deployed handler. -/
theorem disconnectPause :
    (∀ (g : DGame) (pid : String) (p : Player), p ∈ g.players → p.id = pid →
       (∃ q ∈ (disconnect_v1 g pid).players, q.id = pid
          ∧ q.disconnected = true)
       ∧ (g.currentPlayer = some pid →
            (disconnect_v1 g pid).phase = some Phase.paused
            ∧ (disconnect_v1 g pid).previousPhase = g.phase)
       ∧ (g.currentPlayer ≠ some pid →
            (disconnect_v1 g pid).phase = g.phase
            ∧ (disconnect_v1 g pid).previousPhase = g.previousPhase))
    ∧ (∀ (g : DGame) (playerName newId : String) (player : Player),
        g.players.find? (fun p => p.name == playerName) = some player →
        (g.players.map Player.name).Nodup →
        ∃ g', rejoinGame_v1 g playerName newId = some g'
          ∧ (∃ q ∈ g'.players, q.id = newId ∧ q.name = player.name
              ∧ q.disconnected = false)
          ∧ (g.phase = some Phase.paused →
              (∀ q ∈ g.players, q.name ≠ playerName →
                q.disconnected = false) →
              g'.phase = g.previousPhase)
          ∧ ((∃ q ∈ g.players, q.name ≠ playerName ∧ q.disconnected = true) →
              g'.phase = g.phase))
    ∧ (disconnect_v2 exDGame "a").phase = some Phase.playing
    ∧ (disconnect_v2 exDGame "a").previousPhase = none
    ∧ exDGame.currentPlayer = some "a"
    ∧ (∃ q ∈ (disconnect_v2 exDGame "a").players, q.id = "a"
        ∧ q.disconnected = true) := by
  refine ⟨?_, ?_, by decide, by decide, by decide, by decide⟩
  · intro g pid p hp hpid
    have hany : g.players.any (fun q => q.id == pid) = true :=
      List.any_eq_true.2 ⟨p, hp, by simp [hpid]⟩
    by_cases hcp : g.currentPlayer = some pid
    · have hval : disconnect_v1 g pid
          = { g with
              players := updateFirst (fun r => r.id == pid)
                (fun r => { r with disconnected := true }) g.players
              previousPhase := g.phase
              phase := some Phase.paused } := by
        unfold disconnect_v1
        rw [if_pos hany]
        dsimp only
        rw [if_pos hcp]
      refine ⟨?_, fun _ => ⟨?_, ?_⟩, fun hc => absurd hcp hc⟩
      · rw [hval]
        exact updateFirst_mark g.players pid p hp hpid
      · rw [hval]
      · rw [hval]
    · have hval : disconnect_v1 g pid
          = { g with
              players := updateFirst (fun r => r.id == pid)
                (fun r => { r with disconnected := true }) g.players } := by
        unfold disconnect_v1
        rw [if_pos hany]
        dsimp only
        rw [if_neg hcp]
      refine ⟨?_, fun hc => absurd hc hcp, fun _ => ⟨?_, ?_⟩⟩
      · rw [hval]
        exact updateFirst_mark g.players pid p hp hpid
      · rw [hval]
      · rw [hval]
  · intro g playerName newId player hfind hnames
    have hresult : rejoinGame_v1 g playerName newId
        = some { phase :=
                   if g.phase = some Phase.paused
                       ∧ (updateFirst (fun p => p.name == playerName) (fun p => { p with id := newId, disconnected := false }) g.players).any (fun p => p.disconnected) = false
                   then g.previousPhase else g.phase
                 previousPhase := g.previousPhase
                 players := updateFirst (fun p => p.name == playerName) (fun p => { p with id := newId, disconnected := false }) g.players
                 currentPlayer :=
                   if g.currentPlayer = some player.id then some newId
                   else g.currentPlayer
                 highestBidder :=
                   if g.highestBidder = some player.id then some newId
                   else g.highestBidder
                 hands := transferKey g.hands player.id newId
                 predictions :=
                   transferTruthyInt g.predictions player.id newId
                 tricks := transferTruthyInt g.tricks player.id newId } := by
      unfold rejoinGame_v1
      rw [hfind]
      by_cases hcp : g.currentPlayer = some player.id <;>
        by_cases hhb : g.highestBidder = some player.id <;>
        simp [hcp, hhb] <;> split_ifs <;> rfl
    refine ⟨_, hresult, ?_, ?_, ?_⟩
    · exact updateFirst_byName g.players playerName newId player hfind
    · intro hpause hconn
      have hanyf : (updateFirst (fun p => p.name == playerName) (fun p => { p with id := newId, disconnected := false }) g.players).any (fun p => p.disconnected) = false := by
        apply List.any_eq_false.2
        intro q hq
        simp [updateFirst_byName_all_connected g.players playerName newId
          hnames hconn q hq]
      show (if g.phase = some Phase.paused
              ∧ (updateFirst (fun p => p.name == playerName) (fun p => { p with id := newId, disconnected := false }) g.players).any (fun p => p.disconnected) = false
            then g.previousPhase else g.phase) = g.previousPhase
      rw [if_pos ⟨hpause, hanyf⟩]
    · rintro ⟨q, hq, hqn, hqd⟩
      have hanyt := updateFirst_byName_keeps_disconnected g.players
        playerName newId q hq hqn hqd
      show (if g.phase = some Phase.paused
              ∧ (updateFirst (fun p => p.name == playerName) (fun p => { p with id := newId, disconnected := false }) g.players).any (fun p => p.disconnected) = false
            then g.previousPhase else g.phase) = g.phase
      rw [if_neg]
      rintro ⟨_, h2⟩
      rw [hanyt] at h2
      cases h2

/-- Witness: both halves of the C9 theorem instantiated at the concrete
playing state `exDGame`, for the seated current actor Anna (`"a"`) and a
rejoin under the fresh socket id `"a2"`. -/
theorem disconnectPause_witness :
    ((∃ q ∈ (disconnect_v1 exDGame "a").players, q.id = "a"
        ∧ q.disconnected = true)
     ∧ (exDGame.currentPlayer = some "a" →
          (disconnect_v1 exDGame "a").phase = some Phase.paused
          ∧ (disconnect_v1 exDGame "a").previousPhase = exDGame.phase)
     ∧ (exDGame.currentPlayer ≠ some "a" →
          (disconnect_v1 exDGame "a").phase = exDGame.phase
          ∧ (disconnect_v1 exDGame "a").previousPhase
              = exDGame.previousPhase))
    ∧ (∃ g', rejoinGame_v1 exDGame "Anna" "a2" = some g'
        ∧ (∃ q ∈ g'.players, q.id = "a2" ∧ q.name = "Anna"
            ∧ q.disconnected = false)
        ∧ (exDGame.phase = some Phase.paused →
            (∀ q ∈ exDGame.players, q.name ≠ "Anna" →
              q.disconnected = false) →
            g'.phase = exDGame.previousPhase)
        ∧ ((∃ q ∈ exDGame.players, q.name ≠ "Anna" ∧ q.disconnected = true) →
            g'.phase = exDGame.phase)) :=
  ⟨disconnectPause.1 exDGame "a" (Player.mk "a" "Anna" true false)
      (by decide) rfl,
   disconnectPause.2.1 exDGame "Anna" "a2" (Player.mk "a" "Anna" true false)
      (by decide) (by decide)⟩
